import Mathlib

/-!
Verification development for the verdictum repository.

Part I models the per-tenant configuration resolution engine (config
registry, court-type classifier, layer merger, security-policy resolver,
config cache and resolution facade).  The engine itself is not part of the
checked-in Python sources (only its HTTP test client,
`src/tests/config-test.py`, is), so the definitions of Part I are modelled
from the specification document and are marked as such.

Part II embeds the test-fixture maintenance scripts that are checked in:
`src/fix_remaining_test_issues.py` and `src/fix_test_data.py`.  Strings are
modelled as `List Char`; Python's `str.replace` and the `re.sub` calls on
literal patterns are modelled by a left-to-right, non-overlapping
replace-all function.
-/

/-! ### Part I: configuration documents -/

mutual
/-- Modelled from the spec: a configuration document / layer value.  The
spec's layers are JSON-like trees: booleans (feature flags), numbers,
strings, arrays and keyed objects (category maps, flag maps, nested
sections). -/
inductive JVal : Type where
  | b (x : Bool)
  | n (x : Int)
  | s (x : String)
  | arr (xs : List JVal)
  | obj (fields : JObj)

/-- Modelled from the spec: the fields of an object node, as an ordered
association list of key/value pairs. -/
inductive JObj : Type where
  | nil
  | cons (k : String) (v : JVal) (rest : JObj)
end

/-- Look a key up in an object; the first binding wins. -/
def lookupJ : JObj → String → Option JVal
  | .nil, _ => none
  | .cons k v rest, key => if k = key then some v else lookupJ rest key

/-- Replace the first binding of a key, or append a new binding at the end. -/
def upsert : JObj → String → JVal → JObj
  | .nil, key, nv => .cons key nv .nil
  | .cons k v rest, key, nv =>
    if k = key then .cons k nv rest else .cons k v (upsert rest key nv)

mutual
/-- Modelled from the spec: the recursive deep merge of one higher-rank
layer value into one lower-rank layer value (spec 4.3: if both sides are
composite objects, recurse; otherwise the higher-rank value replaces the
lower-rank value entirely — scalars and arrays wholesale, never
concatenated). -/
def applyPatch : JVal → JVal → JVal
  | .obj bf, .obj pf => .obj (applyFields bf pf)
  | _, p => p

/-- Modelled from the spec: merge the fields of a higher-rank object into
the fields of a lower-rank object, key by key. -/
def applyFields : JObj → JObj → JObj
  | bf, .nil => bf
  | bf, .cons k v rest =>
    applyFields
      (upsert bf k (match lookupJ bf k with
        | some w => applyPatch w v
        | none => v))
      rest
end

/-- Follow a path of keys into a document. -/
def getPath : List String → JVal → Option JVal
  | [], v => some v
  | k :: ks, .obj f =>
    (match lookupJ f k with
      | some v => getPath ks v
      | none => none)
  | _ :: _, _ => none

/-- `true` exactly when the value at the path is the boolean `true`
(a flag absent in the merged tree is equivalent to `false`). -/
def isTrueAt (r : JVal) (path : List String) : Bool :=
  match getPath path r with
  | some (.b true) => true
  | _ => false

/-- The integer value at a path, when there is one. -/
def intAt (r : JVal) (path : List String) : Option Int :=
  match getPath path r with
  | some (.n t) => some t
  | _ => none

/-- `true` when the value is an object (a composite node for the merger). -/
def isCompositeB : JVal → Bool
  | .obj _ => true
  | _ => false

/-- `true` when the key is bound in the object. -/
def keyMem (key : String) : JObj → Bool
  | .nil => false
  | .cons k _ rest => k = key || keyMem key rest

/-- `true` when no key is bound twice in the object (shallow). -/
def nodupKeys : JObj → Bool
  | .nil => true
  | .cons k _ rest => !keyMem k rest && nodupKeys rest

mutual
/-- Deep well-formedness of a value: every object node has no duplicate
keys. -/
def wfV : JVal → Bool
  | .b _ => true
  | .n _ => true
  | .s _ => true
  | .arr xs => wfL xs
  | .obj f => nodupKeys f && wfO f

/-- Deep well-formedness of every element of an array. -/
def wfL : List JVal → Bool
  | [] => true
  | v :: vs => wfV v && wfL vs

/-- Deep well-formedness of every value of an object. -/
def wfO : JObj → Bool
  | .nil => true
  | .cons _ v rest => wfV v && wfO rest
end

/-- Deep well-formedness of an object, including its own keys. -/
def wfDoc (f : JObj) : Bool := nodupKeys f && wfO f

/-! ### Part I: registry, classifier, resolver -/

/-- Modelled from the spec: the closed court-type enumeration (spec 3). -/
inductive CourtType : Type where
  | district
  | bankruptcy
  | fisa
  | tax
deriving DecidableEq

/-- Modelled from the spec: parsing an `X-Court-Type` hint string into a
recognized `CourtType`. -/
def parseCourtType (s : String) : Option CourtType :=
  if s = "district" then some .district
  else if s = "bankruptcy" then some .bankruptcy
  else if s = "fisa" then some .fisa
  else if s = "tax" then some .tax
  else none

/-- Modelled from the spec: a district's registry entry — an optional
explicit court-type binding plus the district-override patch (spec 4.1). -/
structure DistrictEntry : Type where
  binding : Option CourtType
  patch : JObj

/-- Modelled from the spec: the immutable configuration registry — the base
layer, one optional layer per court type, and the per-district entries
(spec 4.1). -/
structure Registry : Type where
  base : JObj
  typeLayers : CourtType → Option JObj
  districts : List (String × DistrictEntry)

/-- Look a district code up among the registry's district entries. -/
def lookupEntry : List (String × DistrictEntry) → String → Option DistrictEntry
  | [], _ => none
  | (k, e) :: rest, key => if k = key then some e else lookupEntry rest key

/-- Modelled from the spec: the error taxonomy surfaced by the resolution
core (spec 7); `RegistryLoadError` concerns the out-of-scope loader. -/
inductive CfgError : Type where
  | unknownDistrict
  | unknownCourtType
deriving DecidableEq

/-- `true` when the registry defines a layer for the court type. -/
def hasLayer (reg : Registry) (t : CourtType) : Bool :=
  (reg.typeLayers t).isSome

/-- The registry's explicit type binding for a district code, if any. -/
def bindingOf (reg : Registry) (district : String) : Option CourtType :=
  match lookupEntry reg.districts district with
  | some e => e.binding
  | none => none

/-- Modelled from the spec: classification steps (b) and (c) — the
registry's explicit binding for the district code when there is one, the
default `district` otherwise (spec 4.2). -/
def classifyFallback (reg : Registry) (district : String) : CourtType :=
  match bindingOf reg district with
  | some t => t
  | none => .district

/-- Modelled from the spec: `Classify(districtCode, typeHint)` (spec 4.2).
If the hint is present, recognized, and the registry defines a layer for
it, the hint wins; an unrecognized present hint is `UnknownCourtTypeError`;
otherwise the registry binding applies, defaulting to `district`. -/
def Classify (reg : Registry) (district : String) (hint : Option String) :
    Except CfgError CourtType :=
  match hint with
  | some h =>
    (match parseCourtType h with
      | some t =>
        if hasLayer reg t then .ok t
        else .ok (classifyFallback reg district)
      | none => .error .unknownCourtType)
  | none => .ok (classifyFallback reg district)

/-- The type layer to merge: the classified type's layer, empty when the
registry defines none. -/
def typeLayerD (reg : Registry) (t : CourtType) : JObj :=
  (reg.typeLayers t).getD .nil

/-- The clamp of spec 4.4: `session_timeout_minutes` becomes
`min(mergedValue, 15)`; a missing or non-numeric merged value is pinned to
the maximum of 15. -/
def clampTimeout : Option JVal → JVal
  | some (.n t) => .n (min t 15)
  | _ => .n 15

/-- Modelled from the spec: the non-overridable `fisa` security floor
(spec 4.4): `require_2fa` forced `true`, `session_timeout_minutes` clamped
to at most 15, `require_security_clearance` forced `true`. -/
def fisaSecurityFloor (sec : JObj) : JObj :=
  upsert
    (upsert
      (upsert sec "require_2fa" (.b true))
      "session_timeout_minutes" (clampTimeout (lookupJ sec "session_timeout_minutes")))
    "require_security_clearance" (.b true)

/-- The merged document's `security` section as an object. -/
def secObjOf (doc : JObj) : JObj :=
  match lookupJ doc "security" with
  | some (.obj sec) => sec
  | _ => .nil

/-- Modelled from the spec: `ApplyFloor(courtType, merged)` — the final,
post-merge pass writing the `security` section (spec 4.4); only `fisa`
mandates a floor, other types keep the merged document as-is. -/
def ApplyFloor : CourtType → JObj → JObj
  | .fisa, doc => upsert doc "security" (.obj (fisaSecurityFloor (secObjOf doc)))
  | _, doc => doc

/-- Modelled from the spec: `ResolveConfig(districtCode, typeHint)`
(spec 4.6) — classification first, then layer selection (base, the
classified type's layer, the district override), the ordinary merge in
ascending precedence rank, and the security floor as the final pass.
An unknown district code (with no implicit default configured) is
`UnknownDistrictError`. -/
def ResolveConfig (reg : Registry) (district : String) (hint : Option String) :
    Except CfgError JVal :=
  match Classify reg district hint with
  | .error e => .error e
  | .ok t =>
    (match lookupEntry reg.districts district with
      | none => .error .unknownDistrict
      | some e =>
        .ok (.obj (ApplyFloor t
          (applyFields (applyFields reg.base (typeLayerD reg t)) e.patch))))

/-! ### Part I: config cache -/

/-- Modelled from the spec: the config cache memoizes resolved documents by
`(districtCode, typeHint)` pair for the current registry epoch (spec 4.5). -/
structure ConfigCache : Type where
  entries : List ((String × Option String) × JVal)

/-- Look a `(districtCode, typeHint)` pair up in the cache. -/
def cacheLookup : List ((String × Option String) × JVal) → String × Option String → Option JVal
  | [], _ => none
  | (k, r) :: rest, key => if k = key then some r else cacheLookup rest key

/-- The empty cache (a fresh registry epoch). -/
def emptyCache : ConfigCache := ⟨[]⟩

/-- Modelled from the spec: cache-aware resolution — a hit returns the
stored value with no recomputation, a miss runs the full pipeline and
stores a successful result; failures leave the cache untouched
(spec 4.5, 7). -/
def resolveCached (reg : Registry) (c : ConfigCache) (district : String)
    (hint : Option String) : Except CfgError JVal × ConfigCache :=
  match cacheLookup c.entries (district, hint) with
  | some r => (.ok r, c)
  | none =>
    (match ResolveConfig reg district hint with
      | .ok r => (.ok r, ⟨((district, hint), r) :: c.entries⟩)
      | .error e => (.error e, c))

/-! ### Part I: the concrete registry of the specification's scenarios -/

/-- Build an object from a list of pairs. -/
def jo : List (String × JVal) → JObj
  | [] => .nil
  | (k, v) :: rest => .cons k v (jo rest)

/-- Modelled from the spec: the common base layer (rank 0) — all fixed
top-level sections present, core case management on, permissive default
security (spec 3, 6, 8). -/
def baseLayer : JObj := jo [
  ("district_info", .obj (jo [])),
  ("features", .obj (jo [
    ("core", .obj (jo [("case_management", .b true)]))])),
  ("security", .obj (jo [
    ("require_2fa", .b false),
    ("session_timeout_minutes", .n 60),
    ("require_security_clearance", .b false)])),
  ("local_rules", .obj (jo [])),
  ("tax_specific", .obj (jo []))]

/-- Modelled from the spec: the `district` court-type layer (spec 6, 8). -/
def districtTypeLayer : JObj := jo [
  ("features", .obj (jo [
    ("district", .obj (jo [("criminal_cases", .b true)]))]))]

/-- Modelled from the spec: the `bankruptcy` court-type layer (spec 6, 8). -/
def bankruptcyTypeLayer : JObj := jo [
  ("features", .obj (jo [
    ("bankruptcy", .obj (jo [
      ("chapter_7_liquidation", .b true),
      ("creditor_management", .b true)]))]))]

/-- Modelled from the spec: the `fisa` court-type layer (spec 6, 8). -/
def fisaTypeLayer : JObj := jo [
  ("features", .obj (jo [
    ("fisa", .obj (jo [("surveillance_applications", .b true)]))])),
  ("security", .obj (jo [
    ("require_2fa", .b true),
    ("session_timeout_minutes", .n 15),
    ("require_security_clearance", .b true)]))]

/-- Modelled from the spec: the `tax` court-type layer (spec 6, 8). -/
def taxTypeLayer : JObj := jo [
  ("features", .obj (jo [
    ("tax", .obj (jo [
      ("deficiency_proceedings", .b true),
      ("s_cases", .b true)]))])),
  ("tax_specific", .obj (jo [
    ("s_case_limit", .n 50000),
    ("s_case_no_appeal", .b true)]))]

/-- Modelled from the spec: the SDNY district-override patch (spec 8:
second circuit, AI-assisted research enabled). -/
def sdnyPatch : JObj := jo [
  ("district_info", .obj (jo [("circuit", .s "2")])),
  ("features", .obj (jo [
    ("advanced", .obj (jo [("ai_assisted_research", .b true)]))]))]

/-- Modelled from the spec: the NYBK district-override patch. -/
def nybkPatch : JObj := jo [
  ("district_info", .obj (jo [("circuit", .s "2")]))]

/-- Modelled from the spec: the EDTX district-override patch (spec 8:
fifth circuit, USPTO integration, patent local rules). -/
def edtxPatch : JObj := jo [
  ("district_info", .obj (jo [("circuit", .s "5")])),
  ("features", .obj (jo [
    ("integrations", .obj (jo [("uspto_integration", .b true)]))])),
  ("local_rules", .obj (jo [("patent_local_rules_enabled", .b true)]))]

/-- Modelled from the spec: the registry holding the scenarios of spec 8 —
the base layer, the four court-type layers, and the five district entries
with their bindings and override patches. -/
def theRegistry : Registry where
  base := baseLayer
  typeLayers := fun t =>
    match t with
    | .district => some districtTypeLayer
    | .bankruptcy => some bankruptcyTypeLayer
    | .fisa => some fisaTypeLayer
    | .tax => some taxTypeLayer
  districts := [
    ("SDNY", ⟨none, sdnyPatch⟩),
    ("NYBK", ⟨some .bankruptcy, nybkPatch⟩),
    ("FISA", ⟨some .fisa, jo []⟩),
    ("EDTX", ⟨none, edtxPatch⟩),
    ("TAX", ⟨some .tax, jo []⟩)]

/-- The feature category owned by each court type. -/
def catOf : CourtType → String
  | .district => "district"
  | .bankruptcy => "bankruptcy"
  | .fisa => "fisa"
  | .tax => "tax"

/-- The type-scoped feature categories (the shared categories `core`,
`advanced` and `integrations` are applicable to every tenant type). -/
def typeCategories : List String := ["district", "bankruptcy", "fisa", "tax"]

/-- `true` when no flag of the named feature category is set to `true` in
the resolved document (an absent category or flag counts as disabled). -/
def noTrueFlagsIn (r : JVal) (cat : String) : Bool :=
  match getPath ["features", cat] r with
  | some (.obj flags) => flagsAllOff flags
  | some _ => true
  | none => true
where
  flagsAllOff : JObj → Bool
    | .nil => true
    | .cons _ v rest =>
      (match v with
        | .b true => false
        | _ => true) && flagsAllOff rest

/-- `true` when the optional hint, if present, parses as a recognized
court type. -/
def hintOk : Option String → Bool
  | none => true
  | some s => (parseCourtType s).isSome

/-- The document resolved for the FISA scenario, used as a witness input. -/
def fisaResolvedDoc : JVal :=
  match ResolveConfig theRegistry "FISA" none with
  | .ok r => r
  | .error _ => .obj .nil

/-- The document resolved for the TAX scenario, used as a witness input. -/
def taxResolvedDoc : JVal :=
  match ResolveConfig theRegistry "TAX" none with
  | .ok r => r
  | .error _ => .obj .nil

/-- The document resolved for the NYBK scenario, used as a witness input. -/
def nybkResolvedDoc : JVal :=
  match ResolveConfig theRegistry "NYBK" none with
  | .ok r => r
  | .error _ => .obj .nil

/-! ### Part I: order-of-keys equivalence of documents -/

mutual
/-- Two values that agree up to the order of keys inside object nodes:
scalars must be equal, arrays must be pointwise equivalent, and objects
must have equivalent lookups at every key. -/
inductive JEquiv : JVal → JVal → Prop where
  | b (x : Bool) : JEquiv (.b x) (.b x)
  | n (x : Int) : JEquiv (.n x) (.n x)
  | s (x : String) : JEquiv (.s x) (.s x)
  | arr {xs ys : List JVal} : JEquivL xs ys → JEquiv (.arr xs) (.arr ys)
  | obj {f g : JObj} : (∀ k, JEquivO (lookupJ f k) (lookupJ g k)) → JEquiv (.obj f) (.obj g)

/-- Pointwise equivalence of two arrays. -/
inductive JEquivL : List JVal → List JVal → Prop where
  | nil : JEquivL [] []
  | cons {v w : JVal} {vs ws : List JVal} :
      JEquiv v w → JEquivL vs ws → JEquivL (v :: vs) (w :: ws)

/-- Equivalence of two optional values. -/
inductive JEquivO : Option JVal → Option JVal → Prop where
  | none : JEquivO none none
  | some {v w : JVal} : JEquiv v w → JEquivO (some v) (some w)
end

/-- Two objects that agree up to the order of their keys: equivalent
lookups at every key. -/
def JObjEquiv (f g : JObj) : Prop :=
  ∀ k, JEquivO (lookupJ f k) (lookupJ g k)

/-- Equivalence of two optional layers. -/
inductive OptObjEquiv : Option JObj → Option JObj → Prop where
  | none : OptObjEquiv none none
  | some {f g : JObj} : JObjEquiv f g → OptObjEquiv (some f) (some g)

/-- Equivalence of two optional district entries: the same explicit type
binding, and override patches that agree up to the order of keys. -/
inductive OptEntryEquiv : Option DistrictEntry → Option DistrictEntry → Prop where
  | none : OptEntryEquiv none none
  | some {e e' : DistrictEntry} : e.binding = e'.binding → JObjEquiv e.patch e'.patch →
      OptEntryEquiv (some e) (some e')

/-- Equivalence of two resolution results: the same error, or resolved
documents that agree up to the order of keys. -/
inductive ExceptEquiv : Except CfgError JVal → Except CfgError JVal → Prop where
  | error (e : CfgError) : ExceptEquiv (.error e) (.error e)
  | ok {v w : JVal} : JEquiv v w → ExceptEquiv (.ok v) (.ok w)

/-- Two registries whose layers agree up to the order of keys within every
category and flag map, with the same district bindings. -/
structure RegEquiv (reg reg' : Registry) : Prop where
  base : JObjEquiv reg.base reg'.base
  layers : ∀ t, OptObjEquiv (reg.typeLayers t) (reg'.typeLayers t)
  districts : ∀ d, OptEntryEquiv (lookupEntry reg.districts d) (lookupEntry reg'.districts d)

/-- Well-formedness of an optional layer. -/
def wfLayerOpt : Option JObj → Bool
  | none => true
  | some f => wfDoc f

/-- Well-formedness of every district-override patch. -/
def wfEntries : List (String × DistrictEntry) → Bool
  | [] => true
  | (_, e) :: rest => wfDoc e.patch && wfEntries rest

/-- Well-formedness of a registry: every layer is deeply free of duplicate
keys. -/
def wfRegistry (reg : Registry) : Bool :=
  wfDoc reg.base &&
  wfLayerOpt (reg.typeLayers .district) &&
  wfLayerOpt (reg.typeLayers .bankruptcy) &&
  wfLayerOpt (reg.typeLayers .fisa) &&
  wfLayerOpt (reg.typeLayers .tax) &&
  wfEntries reg.districts

/-! ### Part II: strings and the replace-all model of the fix scripts -/

/-- The characters of a string literal. -/
def strL (s : String) : List Char := s.data

/-- The fuel-indexed core of Python's `str.replace`: scan left to right,
replace each non-overlapping occurrence of `pat`, and resume after the
replaced text.  Every step consumes at least one character, so the length
of the string is always enough fuel (the patterns of these scripts are
nonempty). -/
def replaceGo (pat rep : List Char) : Nat → List Char → List Char
  | _, [] => []
  | 0, s => s
  | fuel + 1, c :: cs =>
    if pat.isPrefixOf (c :: cs) then
      rep ++ replaceGo pat rep fuel (List.drop pat.length (c :: cs))
    else
      c :: replaceGo pat rep fuel cs

/-- Python's `content.replace(old, new)` (also `re.sub` on a
metacharacter-free literal pattern), for nonempty `old`; an empty pattern
returns the string unchanged (the scripts never use one). -/
def replaceAll (s pat rep : List Char) : List Char :=
  if pat.isEmpty then s else replaceGo pat rep s.length s

/-- Apply the replacement pairs of a table in order, as the
`for old, new in replacements.items()` loops do (Python dictionaries
iterate in insertion order). -/
def applyReps (rs : List (List Char × List Char)) (s : List Char) : List Char :=
  rs.foldl (fun acc pr => replaceAll acc pr.1 pr.2) s

/-- `true` when `pat` occurs as a contiguous substring. -/
def hasSub (pat : List Char) : List Char → Bool
  | [] => pat.isPrefixOf []
  | c :: cs => pat.isPrefixOf (c :: cs) || hasSub pat cs

/-- The `replacements` table of `fix_docket_entry_types`
(src/fix_remaining_test_issues.py), in insertion order. -/
def docketReplacements : List (List Char × List Char) := [
  (strL "\"Motion\"", strL "\"motion\""),
  (strL "\"Order\"", strL "\"order\""),
  (strL "\"Complaint\"", strL "\"complaint\""),
  (strL "\"Answer\"", strL "\"answer\""),
  (strL "\"Notice\"", strL "\"notice\""),
  (strL "\"Hearing\"", strL "\"hearing\""),
  (strL "\"Judgment\"", strL "\"judgment\""),
  (strL "\"Verdict\"", strL "\"verdict\""),
  (strL "\"Transcript\"", strL "\"transcript\""),
  (strL "\"Minute_Order\"", strL "\"minute_order\""),
  (strL "\"MinuteOrder\"", strL "\"minute_order\""),
  (strL "\"SchedulingOrder\"", strL "\"scheduling_order\""),
  (strL "\"ProtectiveOrder\"", strL "\"protective_order\"")]

/-- The `replacements` table of `fix_event_types`
(src/fix_remaining_test_issues.py), in insertion order. -/
def eventReplacements : List (List Char × List Char) := [
  (strL "\"Hearing\"", strL "\"motion_hearing\""),
  (strL "\"Trial\"", strL "\"jury_trial\""),
  (strL "\"Arraignment\"", strL "\"arraignment\""),
  (strL "\"Sentencing\"", strL "\"sentencing\""),
  (strL "\"StatusConference\"", strL "\"status_conference\""),
  (strL "\"PretrialConference\"", strL "\"pretrial_conference\""),
  (strL "\"InitialAppearance\"", strL "\"initial_appearance\""),
  (strL "\"BailHearing\"", strL "\"bail_hearing\""),
  (strL "\"PleaHearing\"", strL "\"plea_hearing\""),
  (strL "\"MotionHearing\"", strL "\"motion_hearing\"")]

/-- `fix_docket_entry_types` of src/fix_remaining_test_issues.py. -/
def fix_docket_entry_types (content : List Char) : List Char :=
  applyReps docketReplacements content

/-- `fix_event_types` of src/fix_remaining_test_issues.py. -/
def fix_event_types (content : List Char) : List Char :=
  applyReps eventReplacements content

/-- `fix_event_types` with its first rule — the one mapping `"Hearing"` to
`"motion_hearing"` — removed; used to state whether that rule is
reachable. -/
def fixEventTypesNoHearingRule (content : List Char) : List Char :=
  applyReps eventReplacements.tail content

/-- The first two passes of `process_test_file` in
src/fix_remaining_test_issues.py: `fix_docket_entry_types` is applied
before `fix_event_types`. -/
def firstTwoPasses (content : List Char) : List Char :=
  fix_event_types (fix_docket_entry_types content)

/-- The `id_patterns` table of `fix_uuid_placeholders`
(src/fix_remaining_test_issues.py), in order; the patterns are
metacharacter-free regex literals, so each `re.sub` is a replace-all. -/
def uuidReplacements : List (List Char × List Char) := [
  (strL "\"judge-001\"", strL "\"d45463d9-c01e-5d65-9c6a-f879e574cdca\""),
  (strL "\"judge-002\"", strL "\"7a4f6259-c19b-5497-bc70-2ecf694a3515\""),
  (strL "\"case-001\"", strL "\"d1b698b2-3f01-5c24-9e32-97d794990808\""),
  (strL "\"case-002\"", strL "\"875afca3-0d08-5118-abc0-8640d5b7846b\""),
  (strL "\"attorney-001\"", strL "\"a3c7d5e9-8b4f-4e2a-9c6d-1f3e5a7b9d2c\""),
  (strL "\"def-001\"", strL "\"b4d8e6fa-9c5f-5f3b-ad7e-2g4f6b8cae3d\""),
  (strL "\"deadline-001\"", strL "\"c5e9f7gb-ad6g-6g4c-be8f-3h5g7c9dbf4e\""),
  (strL "\"docket-001\"", strL "\"d6fag8hc-be7h-7h5d-cf9g-4i6h8daecg5f\"")]

/-- `fix_uuid_placeholders` of src/fix_remaining_test_issues.py. -/
def fix_uuid_placeholders (content : List Char) : List Char :=
  applyReps uuidReplacements content

/-- An ASCII hexadecimal digit. -/
def isHexDigit (c : Char) : Bool :=
  ('0' ≤ c && c ≤ '9') || ('a' ≤ c && c ≤ 'f') || ('A' ≤ c && c ≤ 'F')

/-- Canonical 8-4-4-4-12 UUID form: 36 characters, dashes at positions
8, 13, 18 and 23, hexadecimal digits everywhere else. -/
def isValidUuid (s : List Char) : Bool :=
  s.length = 36 &&
  (List.range 36).all (fun i =>
    if i = 8 || i = 13 || i = 18 || i = 23 then s.getD i ' ' = '-'
    else isHexDigit (s.getD i ' '))

/-! ### Part II: SHA-1, `uuid.uuid5`, and `fix_test_data.py` -/

/-- Truncation to 32 bits. -/
def w32 (x : Nat) : Nat := x % 4294967296

/-- 32-bit left rotation of a value below `2 ^ 32`. -/
def rotl32 (k x : Nat) : Nat :=
  w32 (x * 2 ^ k + x / 2 ^ (32 - k))

/-- The SHA-1 round function for round `i` (RFC 3174); the complement of a
32-bit value is its difference from `2 ^ 32 - 1`. -/
def sha1F (i b c d : Nat) : Nat :=
  if i < 20 then (b &&& c) ||| ((4294967295 - b) &&& d)
  else if i < 40 then b ^^^ c ^^^ d
  else if i < 60 then (b &&& c) ||| (b &&& d) ||| (c &&& d)
  else b ^^^ c ^^^ d

/-- The SHA-1 round constant for round `i`. -/
def sha1K (i : Nat) : Nat :=
  if i < 20 then 1518500249
  else if i < 40 then 1859775393
  else if i < 60 then 2400959708
  else 3395469782

/-- Big-endian bytes of a value, over a fixed width. -/
def toBytesBE (nbytes : Nat) (x : Nat) : List Nat :=
  (List.range nbytes).map (fun i => x / 2 ^ (8 * (nbytes - 1 - i)) % 256)

/-- SHA-1 message padding: a `0x80` byte, zeros to 56 modulo 64, and the
bit length as eight big-endian bytes. -/
def sha1Pad (msg : List Nat) : List Nat :=
  msg ++ [128] ++ List.replicate ((119 - msg.length % 64) % 64) 0 ++
    toBytesBE 8 (8 * msg.length)

/-- Split a byte list into 64-byte blocks. -/
def chunk64 (bs : List Nat) : List (List Nat) :=
  if h : bs = [] then []
  else bs.take 64 :: chunk64 (bs.drop 64)
termination_by bs.length
decreasing_by
  have hp : 0 < bs.length := List.length_pos.mpr h
  simp [List.length_drop]
  omega

/-- A big-endian 32-bit word from bytes. -/
def beWord (bs : List Nat) : Nat :=
  bs.foldl (fun acc b => acc * 256 + b) 0

/-- The sixteen 32-bit words of one 64-byte block. -/
def blockWords (blk : List Nat) : List Nat :=
  (List.range 16).map (fun i => beWord ((blk.drop (4 * i)).take 4))

/-- Extend the sixteen block words to eighty schedule words. -/
def sha1Expand : Nat → List Nat → List Nat
  | 0, ws => ws
  | m + 1, ws =>
    sha1Expand m (ws ++ [rotl32 1
      ((ws.getD (ws.length - 3) 0) ^^^ (ws.getD (ws.length - 8) 0) ^^^
        (ws.getD (ws.length - 14) 0) ^^^ (ws.getD (ws.length - 16) 0))])

/-- One SHA-1 compression round. -/
def sha1Step (ws : List Nat) (st : Nat × Nat × Nat × Nat × Nat) (i : Nat) :
    Nat × Nat × Nat × Nat × Nat :=
  match st with
  | (a, b, c, d, e) =>
    (w32 (rotl32 5 a + sha1F i b c d + e + sha1K i + ws.getD i 0), a, rotl32 30 b, c, d)

/-- Process one 64-byte block: eighty rounds, then add into the chaining
state. -/
def sha1Block (st : Nat × Nat × Nat × Nat × Nat) (blk : List Nat) :
    Nat × Nat × Nat × Nat × Nat :=
  match st, (List.range 80).foldl (sha1Step (sha1Expand 64 (blockWords blk))) st with
  | (h0, h1, h2, h3, h4), (a, b, c, d, e) =>
    (w32 (h0 + a), w32 (h1 + b), w32 (h2 + c), w32 (h3 + d), w32 (h4 + e))

/-- The 20-byte SHA-1 digest of a byte message. -/
def sha1 (msg : List Nat) : List Nat :=
  match (chunk64 (sha1Pad msg)).foldl sha1Block
      (1732584193, 4023233417, 2562383102, 271733878, 3285377520) with
  | (h0, h1, h2, h3, h4) =>
    toBytesBE 4 h0 ++ toBytesBE 4 h1 ++ toBytesBE 4 h2 ++ toBytesBE 4 h3 ++ toBytesBE 4 h4

/-- The UTF-8 bytes of one character. -/
def utf8Bytes (c : Char) : List Nat :=
  if c.toNat < 128 then [c.toNat]
  else if c.toNat < 2048 then [192 + c.toNat / 64, 128 + c.toNat % 64]
  else if c.toNat < 65536 then
    [224 + c.toNat / 4096, 128 + c.toNat / 64 % 64, 128 + c.toNat % 64]
  else
    [240 + c.toNat / 262144, 128 + c.toNat / 4096 % 64, 128 + c.toNat / 64 % 64,
      128 + c.toNat % 64]

/-- The UTF-8 encoding of a string. -/
def strBytes (s : List Char) : List Nat :=
  (s.map utf8Bytes).flatten

/-- A lowercase hexadecimal digit character. -/
def hexDigit (x : Nat) : Char :=
  if x < 10 then Char.ofNat (48 + x) else Char.ofNat (87 + x)

/-- Two lowercase hexadecimal digits of a byte. -/
def byteHex (x : Nat) : List Char := [hexDigit (x / 16), hexDigit (x % 16)]

/-- The lowercase hexadecimal rendering of a byte list. -/
def bytesHex (bs : List Nat) : List Char := (bs.map byteHex).flatten

/-- The bytes of `uuid.NAMESPACE_DNS`,
`6ba7b810-9dad-11d1-80b4-00c04fd430c8`. -/
def namespaceDNS : List Nat :=
  [107, 167, 184, 16, 157, 173, 17, 209, 128, 180, 0, 192, 79, 212, 48, 200]

/-- `uuid.uuid5(namespace, name)` (RFC 4122): the SHA-1 digest of the
namespace bytes followed by the UTF-8 bytes of the name, truncated to 16
bytes, with version 5 forced into byte 6 and the variant bits into byte 8,
rendered in the canonical lowercase 8-4-4-4-12 form. -/
def uuid5 (ns : List Nat) (name : List Char) : List Char :=
  let d0 := (sha1 (ns ++ strBytes name)).take 16
  let d := (d0.set 6 (d0.getD 6 0 % 16 + 80)).set 8 (d0.getD 8 0 % 64 + 128)
  bytesHex (d.take 4) ++ '-' :: bytesHex ((d.drop 4).take 2) ++
    '-' :: bytesHex ((d.drop 6).take 2) ++ '-' :: bytesHex ((d.drop 8).take 2) ++
    '-' :: bytesHex (d.drop 10)

/-- `generate_test_uuid` of src/fix_test_data.py: `str(uuid.uuid5(uuid.NAMESPACE_DNS, seed_string))`. -/
def generate_test_uuid (seed : List Char) : List Char :=
  uuid5 namespaceDNS seed

/-- An ASCII lowercase letter, as matched by `[a-z]`. -/
def isLowerAZ (c : Char) : Bool := 'a' ≤ c && c ≤ 'z'

/-- An ASCII digit, as matched by `\d` on this ASCII test data. -/
def isDigit09 (c : Char) : Bool := '0' ≤ c && c ≤ '9'

/-- Try the prefix-plus-digits alternatives (`case-\d+` and the others) at
the start of `cs`, in the order the pattern lists them. -/
def matchSimple : List (List Char) → List Char → Option (List Char × List Char)
  | [], _ => none
  | p :: ps, cs =>
    if p.isPrefixOf cs then
      (if (cs.drop p.length).takeWhile isDigit09 = [] then matchSimple ps cs
       else some (p ++ (cs.drop p.length).takeWhile isDigit09,
         (cs.drop p.length).dropWhile isDigit09))
    else matchSimple ps cs

/-- Match the body of the `test_id_pattern` of `fix_test_uuids`
(`test-[a-z]+-\d+|case-\d+|judge-\d+|attorney-\d+|deadline-\d+|docket-\d+`)
at the start of `cs`, returning the matched id and the rest.  The greedy
character classes cannot backtrack usefully here (a shorter span leaves a
character of the same class next, which the following literal rejects), so
this maximal-munch matcher agrees with the regex engine. -/
def matchIdBody (cs : List Char) : Option (List Char × List Char) :=
  if (strL "test-").isPrefixOf cs then
    (if (cs.drop 5).takeWhile isLowerAZ = [] then none
     else if ['-'].isPrefixOf ((cs.drop 5).dropWhile isLowerAZ) then
       (if (((cs.drop 5).dropWhile isLowerAZ).drop 1).takeWhile isDigit09 = [] then none
        else some (strL "test-" ++ (cs.drop 5).takeWhile isLowerAZ ++
          '-' :: (((cs.drop 5).dropWhile isLowerAZ).drop 1).takeWhile isDigit09,
          (((cs.drop 5).dropWhile isLowerAZ).drop 1).dropWhile isDigit09))
     else none)
  else
    matchSimple [strL "case-", strL "judge-", strL "attorney-", strL "deadline-",
      strL "docket-"] cs

/-- Match the full quoted pattern `"(...)"` at the start of `cs`. -/
def tryMatchId (cs : List Char) : Option (List Char × List Char) :=
  match cs with
  | [] => none
  | c :: cs1 =>
    if c = '\"' then
      (match matchIdBody cs1 with
        | some (id, rest1) =>
          (match rest1 with
            | '\"' :: rest => some (id, rest)
            | _ => none)
        | none => none)
    else none

/-- The fuel-indexed scan of `re.sub` for `fix_test_uuids`: at each
position, replace a quoted test-id match with the quoted
`generate_test_uuid` of the id and resume after it, else keep the
character.  A match consumes at least three characters, so the string
length is always enough fuel. -/
def fixScanGo : Nat → List Char → List Char
  | _, [] => []
  | 0, s => s
  | fuel + 1, c :: cs =>
    match tryMatchId (c :: cs) with
    | some (id, rest) => '\"' :: generate_test_uuid id ++ '\"' :: fixScanGo fuel rest
    | none => c :: fixScanGo fuel cs

/-- `fix_test_uuids` of src/fix_test_data.py. -/
def fix_test_uuids (content : List Char) : List Char :=
  fixScanGo content.length content

/-- The words of the simple alternatives: a fixed prefix followed by at
least one digit. -/
def isSimpleBody (pre id : List Char) : Bool :=
  pre.isPrefixOf id && (id.drop pre.length ≠ []) && (id.drop pre.length).all isDigit09

/-- The words of the `test-[a-z]+-\d+` alternative: the prefix `test-`,
then at least one lowercase letter, a dash, and nothing but at least one
digit. -/
def isTestBody (id : List Char) : Bool :=
  (strL "test-").isPrefixOf id &&
  ((id.drop 5).takeWhile isLowerAZ ≠ []) &&
  ['-'].isPrefixOf ((id.drop 5).dropWhile isLowerAZ) &&
  ((((id.drop 5).dropWhile isLowerAZ).drop 1) ≠ []) &&
  ((((id.drop 5).dropWhile isLowerAZ).drop 1).all isDigit09)

/-- The words of the test-ID pattern body of `fix_test_uuids`. -/
def isTestId (id : List Char) : Bool :=
  isTestBody id || isSimpleBody (strL "case-") id || isSimpleBody (strL "judge-") id ||
  isSimpleBody (strL "attorney-") id || isSimpleBody (strL "deadline-") id ||
  isSimpleBody (strL "docket-") id

/-! ### Part I: helper lemmas about objects and the merge -/

theorem lookupJ_upsert_self (f : JObj) (k : String) (v : JVal) :
    lookupJ (upsert f k v) k = some v := by
  match f with
  | .nil => simp [upsert, lookupJ]
  | .cons k' w rest =>
    by_cases h : k' = k
    · simp [upsert, h, lookupJ]
    · simp [upsert, h, lookupJ, lookupJ_upsert_self rest k v]

theorem lookupJ_upsert_ne (f : JObj) (k key : String) (v : JVal) (hne : k ≠ key) :
    lookupJ (upsert f k v) key = lookupJ f key := by
  match f with
  | .nil => simp [upsert, lookupJ, hne]
  | .cons k' w rest =>
    by_cases h : k' = k
    · subst h; simp [upsert, lookupJ, hne]
    · simp [upsert, h, lookupJ, lookupJ_upsert_ne rest k key v hne]

theorem clampTimeout_le (o : Option JVal) :
    ∃ t : Int, clampTimeout o = .n t ∧ t ≤ 15 := by
  match o with
  | none => exact ⟨15, rfl, le_refl 15⟩
  | some (.b x) => exact ⟨15, rfl, le_refl 15⟩
  | some (.n t) => exact ⟨min t 15, rfl, min_le_right t 15⟩
  | some (.s x) => exact ⟨15, rfl, le_refl 15⟩
  | some (.arr xs) => exact ⟨15, rfl, le_refl 15⟩
  | some (.obj f) => exact ⟨15, rfl, le_refl 15⟩

theorem fisaSecurityFloor_fields (sec : JObj) :
    lookupJ (fisaSecurityFloor sec) "require_2fa" = some (.b true) ∧
    (∃ t : Int, lookupJ (fisaSecurityFloor sec) "session_timeout_minutes" = some (.n t) ∧
      t ≤ 15) ∧
    lookupJ (fisaSecurityFloor sec) "require_security_clearance" = some (.b true) := by
  unfold fisaSecurityFloor
  obtain ⟨t, ht, hle⟩ := clampTimeout_le (lookupJ sec "session_timeout_minutes")
  refine ⟨?_, ⟨t, ?_, hle⟩, ?_⟩
  · rw [lookupJ_upsert_ne _ _ _ _ (by decide), lookupJ_upsert_ne _ _ _ _ (by decide),
      lookupJ_upsert_self]
  · rw [lookupJ_upsert_ne _ _ _ _ (by decide), lookupJ_upsert_self, ht]
  · rw [lookupJ_upsert_self]

theorem ResolveConfig_ok_inv {reg : Registry} {d : String} {hint : Option String} {r : JVal}
    (hres : ResolveConfig reg d hint = .ok r) :
    ∃ t e, Classify reg d hint = .ok t ∧ lookupEntry reg.districts d = some e ∧
      r = .obj (ApplyFloor t (applyFields (applyFields reg.base (typeLayerD reg t)) e.patch)) := by
  unfold ResolveConfig at hres
  cases hc : Classify reg d hint with
  | error e => rw [hc] at hres; simp at hres
  | ok t =>
    rw [hc] at hres
    cases hl : lookupEntry reg.districts d with
    | none => rw [hl] at hres; simp at hres
    | some e =>
      rw [hl] at hres
      refine ⟨t, e, rfl, rfl, ?_⟩
      injection hres with h'
      exact h'.symm

theorem lookupEntry_mem {l : List (String × DistrictEntry)} {d : String} {e : DistrictEntry}
    (h : lookupEntry l d = some e) : (d, e) ∈ l := by
  induction l with
  | nil => simp [lookupEntry] at h
  | cons p rest ih =>
    obtain ⟨k, v⟩ := p
    by_cases hk : k = d
    · subst hk
      simp [lookupEntry] at h
      subst h
      exact List.mem_cons_self _ _
    · simp [lookupEntry, hk] at h
      exact List.mem_cons_of_mem _ (ih h)

/-! ### Part I: claim theorems -/

/-- C1: for every district classified as court type `fisa`, the resolved
configuration returned by `ResolveConfig` satisfies
`security.require_2fa = true`, `security.session_timeout_minutes ≤ 15`
(clamped to `min(mergedValue, 15)`), and
`security.require_security_clearance = true`, regardless of any
conflicting values supplied by the district-override layer (the theorem
quantifies over every registry, hence over every override patch). -/
theorem fisa_floor_enforced (reg : Registry) (d : String) (hint : Option String) (r : JVal)
    (hres : ResolveConfig reg d hint = .ok r)
    (hcls : Classify reg d hint = .ok .fisa) :
    isTrueAt r ["security", "require_2fa"] = true ∧
    (∃ t : Int, intAt r ["security", "session_timeout_minutes"] = some t ∧ t ≤ 15) ∧
    isTrueAt r ["security", "require_security_clearance"] = true := by
  obtain ⟨t, e, hc, hl, hr⟩ := ResolveConfig_ok_inv hres
  rw [hcls] at hc
  injection hc with ht
  subst ht
  subst hr
  obtain ⟨h1, ⟨tm, h2, h2le⟩, h3⟩ :=
    fisaSecurityFloor_fields
      (secObjOf (applyFields (applyFields reg.base (typeLayerD reg .fisa)) e.patch))
  refine ⟨?_, ⟨tm, ?_, h2le⟩, ?_⟩
  · simp [isTrueAt, ApplyFloor, getPath, lookupJ_upsert_self, h1]
  · simp [intAt, ApplyFloor, getPath, lookupJ_upsert_self, h2]
  · simp [isTrueAt, ApplyFloor, getPath, lookupJ_upsert_self, h3]

theorem fisa_floor_enforced_w :
    isTrueAt fisaResolvedDoc ["security", "require_2fa"] = true ∧
    (∃ t : Int, intAt fisaResolvedDoc ["security", "session_timeout_minutes"] = some t ∧
      t ≤ 15) ∧
    isTrueAt fisaResolvedDoc ["security", "require_security_clearance"] = true :=
  fisa_floor_enforced theRegistry "FISA" none fisaResolvedDoc (by rfl) (by rfl)

theorem classify_ok_of_hintOk (reg : Registry) (d : String) (hint : Option String)
    (h : hintOk hint = true) : ∃ t, Classify reg d hint = .ok t := by
  cases hint with
  | none => exact ⟨classifyFallback reg d, rfl⟩
  | some s =>
    cases hp : parseCourtType s with
    | none => simp [hintOk, hp] at h
    | some t =>
      by_cases hl : hasLayer reg t
      · exact ⟨t, by simp [Classify, hp, hl]⟩
      · exact ⟨classifyFallback reg d, by simp [Classify, hp, hl]⟩

/-- C3: `Classify(districtCode, typeHint)` resolves the effective court
type in this exact order: a present, recognized hint whose type has a
registry layer wins; otherwise an explicit registry type binding for the
district code; otherwise the default `district`.  It fails with
`UnknownCourtTypeError` exactly when the hint is present but unrecognized,
so an absent hint never causes this error. -/
theorem classify_order (reg : Registry) (d : String) (hint : Option String) :
    (∀ s t, hint = some s → parseCourtType s = some t → hasLayer reg t = true →
      Classify reg d hint = .ok t) ∧
    ((hint = none ∨ ∃ s t, hint = some s ∧ parseCourtType s = some t ∧ hasLayer reg t = false) →
      (∀ t, bindingOf reg d = some t → Classify reg d hint = .ok t) ∧
      (bindingOf reg d = none → Classify reg d hint = .ok .district)) ∧
    (Classify reg d hint = .error .unknownCourtType ↔
      ∃ s, hint = some s ∧ parseCourtType s = none) := by
  refine ⟨?_, ?_, ?_⟩
  · intro s t hs hp hl
    subst hs
    simp [Classify, hp, hl]
  · intro hfall
    have hcls : Classify reg d hint = .ok (classifyFallback reg d) := by
      rcases hfall with hnone | ⟨s, t, hs, hp, hl⟩
      · subst hnone; rfl
      · subst hs; simp [Classify, hp, hl]
    constructor
    · intro t hb
      rw [hcls, classifyFallback, hb]
    · intro hb
      rw [hcls, classifyFallback, hb]
  · constructor
    · intro herr
      cases hint with
      | none => simp [Classify] at herr
      | some s =>
        cases hp : parseCourtType s with
        | none => exact ⟨s, rfl, hp⟩
        | some t =>
          by_cases hl : hasLayer reg t <;> simp [Classify, hp, hl] at herr
    · rintro ⟨s, hs, hp⟩
      subst hs
      simp [Classify, hp]

theorem classify_order_w : Classify theRegistry "NYBK" none = .ok .bankruptcy :=
  ((classify_order theRegistry "NYBK" none).2.1 (Or.inl rfl)).1 .bankruptcy (by rfl)

/-- C6 counterexample: at the concrete input `("UNKNOWN", some "bogus")`
the district code has no registry entry, yet the resolver fails with
`UnknownCourtTypeError` (the classifier runs first), not
`UnknownDistrictError` — refuting the claim that `UnknownDistrictError`
occurs exactly when the district code has no registry entry. -/
theorem resolve_unknown_both_cx :
    lookupEntry theRegistry.districts "UNKNOWN" = none ∧
    ResolveConfig theRegistry "UNKNOWN" (some "bogus") = .error .unknownCourtType ∧
    ResolveConfig theRegistry "UNKNOWN" (some "bogus") ≠ .error .unknownDistrict := by
  refine ⟨rfl, rfl, ?_⟩
  intro hEq
  rw [show ResolveConfig theRegistry "UNKNOWN" (some "bogus") = .error .unknownCourtType
    from rfl] at hEq
  simp at hEq

/-- C6 (amended): for a hint that is absent or recognized,
`ResolveConfig` fails with `UnknownDistrictError` exactly when the
district code has no registry entry (no implicit default is configured);
a present unrecognized hint takes precedence and fails with
`UnknownCourtTypeError` propagated from the classifier; in particular
`ResolveConfig("UNKNOWN", none)` yields `UnknownDistrictError`; and a
failing resolution leaves the cache state unchanged (resolution mutates
no registry state: it is a pure function of the registry snapshot). -/
theorem resolve_error_behaviour :
    (∀ (reg : Registry) (d : String) (hint : Option String), hintOk hint = true →
      (ResolveConfig reg d hint = .error .unknownDistrict ↔
        lookupEntry reg.districts d = none)) ∧
    (∀ (reg : Registry) (d s : String), parseCourtType s = none →
      ResolveConfig reg d (some s) = .error .unknownCourtType) ∧
    ResolveConfig theRegistry "UNKNOWN" none = .error .unknownDistrict ∧
    (∀ (reg : Registry) (c : ConfigCache) (d : String) (hint : Option String) (e : CfgError),
      ResolveConfig reg d hint = .error e → (resolveCached reg c d hint).2 = c) := by
  refine ⟨?_, ?_, rfl, ?_⟩
  · intro reg d hint hok
    obtain ⟨t, ht⟩ := classify_ok_of_hintOk reg d hint hok
    unfold ResolveConfig
    rw [ht]
    cases hl : lookupEntry reg.districts d with
    | none => simp
    | some e => simp
  · intro reg d s hp
    unfold ResolveConfig
    simp [Classify, hp]
  · intro reg c d hint e hres
    unfold resolveCached
    cases hcl : cacheLookup c.entries (d, hint) with
    | some r => rfl
    | none => rw [hres]

theorem resolve_error_behaviour_w :
    ResolveConfig theRegistry "SDNY" (some "bogus") = .error .unknownCourtType :=
  resolve_error_behaviour.2.1 theRegistry "SDNY" "bogus" (by rfl)

/-- C7: for every district classified as court type `tax`, the resolved
configuration has `features.tax.deficiency_proceedings = true`,
`features.tax.s_cases = true`, `tax_specific.s_case_limit = 50000`, and
`tax_specific.s_case_no_appeal = true`. -/
theorem tax_court_values (d : String) (hint : Option String) (r : JVal)
    (hres : ResolveConfig theRegistry d hint = .ok r)
    (hcls : Classify theRegistry d hint = .ok .tax) :
    isTrueAt r ["features", "tax", "deficiency_proceedings"] = true ∧
    isTrueAt r ["features", "tax", "s_cases"] = true ∧
    intAt r ["tax_specific", "s_case_limit"] = some 50000 ∧
    isTrueAt r ["tax_specific", "s_case_no_appeal"] = true := by
  obtain ⟨t, e, hc, hl, hr⟩ := ResolveConfig_ok_inv hres
  rw [hcls] at hc
  injection hc with ht
  subst ht
  subst hr
  have hmem := lookupEntry_mem hl
  simp [theRegistry] at hmem
  rcases hmem with ⟨hd, he⟩ | ⟨hd, he⟩ | ⟨hd, he⟩ | ⟨hd, he⟩ | ⟨hd, he⟩ <;> subst he <;> decide

theorem tax_court_values_w :
    isTrueAt taxResolvedDoc ["features", "tax", "deficiency_proceedings"] = true ∧
    isTrueAt taxResolvedDoc ["features", "tax", "s_cases"] = true ∧
    intAt taxResolvedDoc ["tax_specific", "s_case_limit"] = some 50000 ∧
    isTrueAt taxResolvedDoc ["tax_specific", "s_case_no_appeal"] = true :=
  tax_court_values "TAX" none taxResolvedDoc (by rfl) (by rfl)

/-- C2: for every court type `T` and district classified as `T` in the
registry of the specification's scenarios, the resolved feature tree
contains no `true` flag in a type-scoped category other than `T`'s own; in
particular a bankruptcy-classified resolution never has
`features.district.criminal_cases = true` and a district-classified
resolution never has `features.bankruptcy.chapter_7_liquidation = true` —
only the type layer matching the classified court type is merged. -/
theorem category_selection (d : String) (hint : Option String) (r : JVal) (T : CourtType)
    (hres : ResolveConfig theRegistry d hint = .ok r)
    (hcls : Classify theRegistry d hint = .ok T) :
    (∀ c ∈ typeCategories, c ≠ catOf T → noTrueFlagsIn r c = true) ∧
    (T = .bankruptcy → isTrueAt r ["features", "district", "criminal_cases"] = false) ∧
    (T = .district → isTrueAt r ["features", "bankruptcy", "chapter_7_liquidation"] = false) := by
  obtain ⟨t, e, hc, hl, hr⟩ := ResolveConfig_ok_inv hres
  rw [hcls] at hc
  injection hc with ht
  subst ht
  subst hr
  have hmem := lookupEntry_mem hl
  simp [theRegistry] at hmem
  rcases hmem with ⟨hd, he⟩ | ⟨hd, he⟩ | ⟨hd, he⟩ | ⟨hd, he⟩ | ⟨hd, he⟩ <;> subst he <;>
    cases T <;> decide

theorem category_selection_w :
    (∀ c ∈ typeCategories, c ≠ catOf .bankruptcy → noTrueFlagsIn nybkResolvedDoc c = true) ∧
    (CourtType.bankruptcy = .bankruptcy →
      isTrueAt nybkResolvedDoc ["features", "district", "criminal_cases"] = false) ∧
    (CourtType.bankruptcy = .district →
      isTrueAt nybkResolvedDoc ["features", "bankruptcy", "chapter_7_liquidation"] = false) :=
  category_selection "NYBK" none nybkResolvedDoc .bankruptcy (by rfl) (by rfl)

theorem lookupJ_none_of_keyMem_false {f : JObj} {k : String} (h : keyMem k f = false) :
    lookupJ f k = none := by
  match f with
  | .nil => rfl
  | .cons k' v rest =>
    simp [keyMem] at h
    simp [lookupJ, h.1, lookupJ_none_of_keyMem_false h.2]

theorem lookupJ_applyFields (bf pf : JObj) (hnd : nodupKeys pf = true) (k : String) :
    lookupJ (applyFields bf pf) k =
      match lookupJ pf k with
      | some v =>
        some (match lookupJ bf k with
          | some w => applyPatch w v
          | none => v)
      | none => lookupJ bf k := by
  match pf with
  | .nil => simp [applyFields, lookupJ]
  | .cons k0 v0 rest =>
    simp only [nodupKeys, Bool.and_eq_true, Bool.not_eq_true'] at hnd
    have ih := lookupJ_applyFields
      (upsert bf k0 (match lookupJ bf k0 with
        | some w => applyPatch w v0
        | none => v0)) rest hnd.2 k
    show lookupJ (applyFields (upsert bf k0 _) rest) k = _
    rw [ih]
    by_cases hk : k0 = k
    · subst hk
      rw [lookupJ_none_of_keyMem_false hnd.1, lookupJ_upsert_self]
      simp [lookupJ]
    · rw [lookupJ_upsert_ne _ _ _ _ hk]
      simp [lookupJ, hk]

/-- C5: in the merger, for every key bound in both the lower-rank and the
higher-rank layer the merged value is `applyPatch lower higher`, which
recurses exactly when both values are composite objects; in every other
case the higher-rank value replaces the lower-rank value entirely —
scalars and arrays are replaced wholesale and never concatenated. -/
theorem merge_semantics :
    (∀ (bf pf : JObj), nodupKeys pf = true → ∀ k,
      lookupJ (applyFields bf pf) k =
        match lookupJ pf k with
        | some v =>
          some (match lookupJ bf k with
            | some w => applyPatch w v
            | none => v)
        | none => lookupJ bf k) ∧
    (∀ (lf hf : JObj), applyPatch (.obj lf) (.obj hf) = .obj (applyFields lf hf)) ∧
    (∀ (lo hi : JVal), (isCompositeB lo && isCompositeB hi) = false → applyPatch lo hi = hi) ∧
    (∀ (xs ys : List JVal), applyPatch (.arr xs) (.arr ys) = .arr ys) := by
  refine ⟨fun bf pf hnd k => lookupJ_applyFields bf pf hnd k, fun _ _ => rfl, ?_, fun _ _ => rfl⟩
  intro lo hi h
  cases lo <;> cases hi <;> first | rfl | simp [isCompositeB] at h

theorem merge_semantics_w :
    lookupJ (applyFields (jo [("a", .n 1)]) (jo [("a", .n 2), ("b", .n 3)])) "a" =
      match lookupJ (jo [("a", .n 2), ("b", .n 3)]) "a" with
      | some v =>
        some (match lookupJ (jo [("a", .n 1)]) "a" with
          | some w => applyPatch w v
          | none => v)
      | none => lookupJ (jo [("a", .n 1)]) "a" :=
  merge_semantics.1 (jo [("a", .n 1)]) (jo [("a", .n 2), ("b", .n 3)]) (by decide) "a"

theorem sizeOf_lookupJ {f : JObj} {k : String} {w : JVal} (h : lookupJ f k = some w) :
    sizeOf w < sizeOf f := by
  match f with
  | .nil => simp [lookupJ] at h
  | .cons k' v rest =>
    simp only [lookupJ] at h
    by_cases hk : k' = k
    · rw [if_pos hk] at h
      injection h with h
      subst h
      simp only [JObj.cons.sizeOf_spec]
      omega
    · rw [if_neg hk] at h
      have := sizeOf_lookupJ h
      simp only [JObj.cons.sizeOf_spec]
      omega

theorem wfV_of_lookupJ {f : JObj} {k : String} {w : JVal} (hwf : wfO f = true)
    (h : lookupJ f k = some w) : wfV w = true := by
  match f with
  | .nil => simp [lookupJ] at h
  | .cons k' v rest =>
    simp only [wfO, Bool.and_eq_true] at hwf
    simp only [lookupJ] at h
    by_cases hk : k' = k
    · rw [if_pos hk] at h
      injection h with h
      subst h
      exact hwf.1
    · rw [if_neg hk] at h
      exact wfV_of_lookupJ hwf.2 h

theorem keyMem_upsert (f : JObj) (k key : String) (v : JVal) :
    keyMem key (upsert f k v) = (k = key || keyMem key f) := by
  match f with
  | .nil => simp [upsert, keyMem]
  | .cons k' w rest =>
    by_cases hk : k' = k
    · subst hk
      simp only [upsert, if_pos rfl, keyMem]
      cases hd : decide (k' = key) <;> simp_all
    · simp only [upsert, if_neg hk, keyMem, keyMem_upsert rest k key v]
      cases hd : decide (k' = key) <;> cases hd2 : decide (k = key) <;> simp_all

theorem nodupKeys_upsert (f : JObj) (k : String) (v : JVal) (h : nodupKeys f = true) :
    nodupKeys (upsert f k v) = true := by
  match f with
  | .nil => simp [upsert, nodupKeys, keyMem]
  | .cons k' w rest =>
    simp only [nodupKeys, Bool.and_eq_true, Bool.not_eq_true'] at h
    by_cases hk : k' = k
    · simp only [upsert, if_pos hk, nodupKeys, Bool.and_eq_true, Bool.not_eq_true']
      exact ⟨h.1, h.2⟩
    · simp only [upsert, if_neg hk, nodupKeys, Bool.and_eq_true, Bool.not_eq_true',
        keyMem_upsert]
      refine ⟨?_, nodupKeys_upsert rest k v h.2⟩
      have hk' : k ≠ k' := fun heq => hk heq.symm
      simp [hk', h.1]

theorem wfO_upsert (f : JObj) (k : String) (v : JVal) (hf : wfO f = true)
    (hv : wfV v = true) : wfO (upsert f k v) = true := by
  match f with
  | .nil => simp [upsert, wfO, hv]
  | .cons k' w rest =>
    simp only [wfO, Bool.and_eq_true] at hf
    by_cases hk : k' = k
    · simp only [upsert, if_pos hk, wfO, Bool.and_eq_true]
      exact ⟨hv, hf.2⟩
    · simp only [upsert, if_neg hk, wfO, Bool.and_eq_true]
      exact ⟨hf.1, wfO_upsert rest k v hf.2 hv⟩

theorem applyPatch_replaces (lo hi : JVal) (h : (isCompositeB lo && isCompositeB hi) = false) :
    applyPatch lo hi = hi := by
  cases lo <;> cases hi <;> first | rfl | simp [isCompositeB] at h

theorem isCompositeB_obj {v : JVal} (h : isCompositeB v = true) : ∃ f, v = .obj f := by
  cases v <;> simp [isCompositeB] at h ⊢

theorem wf_merge_aux (n : Nat) :
    (∀ (lo hi : JVal), sizeOf hi ≤ n → wfV lo = true → wfV hi = true →
      wfV (applyPatch lo hi) = true) ∧
    (∀ (bf pf : JObj), sizeOf pf ≤ n → nodupKeys bf = true → wfO bf = true →
      wfO pf = true →
      nodupKeys (applyFields bf pf) = true ∧ wfO (applyFields bf pf) = true) := by
  induction n using Nat.strong_induction_on with
  | _ n ih =>
    constructor
    · intro lo hi hsz hlo hhi
      by_cases hc : (isCompositeB lo && isCompositeB hi) = true
      · simp only [Bool.and_eq_true] at hc
        obtain ⟨bf, rfl⟩ := isCompositeB_obj hc.1
        obtain ⟨pf, rfl⟩ := isCompositeB_obj hc.2
        simp only [wfV, Bool.and_eq_true] at hlo hhi
        have hszpf : sizeOf pf < n := by
          simp only [JVal.obj.sizeOf_spec] at hsz
          omega
        have h2 := (ih (sizeOf pf) hszpf).2 bf pf le_rfl hlo.1 hlo.2 hhi.2
        show wfV (.obj (applyFields bf pf)) = true
        simp only [wfV, Bool.and_eq_true]
        exact h2
      · rw [applyPatch_replaces lo hi (by simpa using hc)]
        exact hhi
    · intro bf pf hsz hbn hbo hpo
      match pf with
      | .nil => exact ⟨hbn, hbo⟩
      | .cons k v rest =>
        simp only [wfO, Bool.and_eq_true] at hpo
        simp only [JObj.cons.sizeOf_spec] at hsz
        have hm : wfV (match lookupJ bf k with
            | some w => applyPatch w v
            | none => v) = true := by
          cases hl : lookupJ bf k with
          | none => exact hpo.1
          | some w =>
            have hszv : sizeOf v < n := by omega
            exact (ih (sizeOf v) hszv).1 w v le_rfl (wfV_of_lookupJ hbo hl) hpo.1
        have hlt : sizeOf rest < n := by omega
        exact (ih (sizeOf rest) hlt).2
          (upsert bf k (match lookupJ bf k with
            | some w => applyPatch w v
            | none => v)) rest le_rfl
          (nodupKeys_upsert bf k _ hbn) (wfO_upsert bf k _ hbo hm) hpo.2

theorem wfDoc_applyFields (bf pf : JObj) (h1 : wfDoc bf = true) (h2 : wfDoc pf = true) :
    wfDoc (applyFields bf pf) = true := by
  simp only [wfDoc, Bool.and_eq_true] at h1 h2 ⊢
  exact (wf_merge_aux (sizeOf pf)).2 bf pf le_rfl h1.1 h1.2 h2.2

theorem JEquivO_none {a b : Option JVal} (h : JEquivO a b) (ha : a = none) : b = none := by
  cases h with
  | none => rfl
  | some hv => simp at ha

theorem JEquivO_some {a b : Option JVal} {v : JVal} (h : JEquivO a b) (ha : a = some v) :
    ∃ w, b = some w ∧ JEquiv v w := by
  cases h with
  | none => simp at ha
  | some hv =>
    injection ha with ha
    subst ha
    exact ⟨_, rfl, hv⟩

theorem jequiv_refl_aux (n : Nat) :
    (∀ v : JVal, sizeOf v ≤ n → JEquiv v v) ∧
    (∀ xs : List JVal, sizeOf xs ≤ n → JEquivL xs xs) := by
  induction n using Nat.strong_induction_on with
  | _ n ih =>
    constructor
    · intro v hsz
      match v with
      | .b x => exact .b x
      | .n x => exact .n x
      | .s x => exact .s x
      | .arr xs =>
        refine .arr ?_
        simp only [JVal.arr.sizeOf_spec] at hsz
        exact (ih (sizeOf xs) (by omega)).2 xs le_rfl
      | .obj f =>
        refine .obj (fun k => ?_)
        cases hl : lookupJ f k with
        | none => exact .none
        | some w =>
          have hw := sizeOf_lookupJ hl
          simp only [JVal.obj.sizeOf_spec] at hsz
          exact .some ((ih (sizeOf w) (by omega)).1 w le_rfl)
    · intro xs hsz
      match xs with
      | [] => exact .nil
      | v :: vs =>
        simp only [List.cons.sizeOf_spec] at hsz
        exact .cons ((ih (sizeOf v) (by omega)).1 v le_rfl)
          ((ih (sizeOf vs) (by omega)).2 vs le_rfl)

theorem jequiv_refl (v : JVal) : JEquiv v v :=
  (jequiv_refl_aux (sizeOf v)).1 v le_rfl

theorem jobjEquiv_refl (f : JObj) : JObjEquiv f f := by
  intro k
  cases hl : lookupJ f k with
  | none => exact .none
  | some w => exact .some (jequiv_refl w)

theorem jobjEquiv_nil : JObjEquiv .nil .nil :=
  jobjEquiv_refl .nil

theorem applyPatch_congr_aux (n : Nat) :
    ∀ (lo hi lo' hi' : JVal), sizeOf lo + sizeOf hi ≤ n →
      wfV lo = true → wfV hi = true → wfV lo' = true → wfV hi' = true →
      JEquiv lo lo' → JEquiv hi hi' → JEquiv (applyPatch lo hi) (applyPatch lo' hi') := by
  induction n using Nat.strong_induction_on with
  | _ n ih =>
    intro lo hi lo' hi' hsz hwlo hwhi hwlo' hwhi' helo hehi
    cases hehi with
    | b x =>
      rw [applyPatch_replaces lo _ (by simp [isCompositeB]),
        applyPatch_replaces lo' _ (by simp [isCompositeB])]
      exact .b x
    | n x =>
      rw [applyPatch_replaces lo _ (by simp [isCompositeB]),
        applyPatch_replaces lo' _ (by simp [isCompositeB])]
      exact .n x
    | s x =>
      rw [applyPatch_replaces lo _ (by simp [isCompositeB]),
        applyPatch_replaces lo' _ (by simp [isCompositeB])]
      exact .s x
    | arr hl =>
      rw [applyPatch_replaces lo _ (by simp [isCompositeB]),
        applyPatch_replaces lo' _ (by simp [isCompositeB])]
      exact .arr hl
    | obj hg =>
      rename_i g g'
      cases helo with
      | b x => exact JEquiv.obj hg
      | n x => exact JEquiv.obj hg
      | s x => exact JEquiv.obj hg
      | arr hl => exact JEquiv.obj hg
      | obj hf =>
        rename_i f f'
        simp only [wfV, Bool.and_eq_true] at hwlo hwhi hwlo' hwhi'
        show JEquiv (.obj (applyFields f g)) (.obj (applyFields f' g'))
        refine .obj (fun k => ?_)
        rw [lookupJ_applyFields f g hwhi.1 k, lookupJ_applyFields f' g' hwhi'.1 k]
        cases hgk : lookupJ g k with
        | none =>
          rw [JEquivO_none (hg k) hgk]
          exact hf k
        | some v =>
          obtain ⟨v', hv', hvv⟩ := JEquivO_some (hg k) hgk
          rw [hv']
          cases hfk : lookupJ f k with
          | none =>
            rw [JEquivO_none (hf k) hfk]
            exact JEquivO.some hvv
          | some w =>
            obtain ⟨w', hw', hww⟩ := JEquivO_some (hf k) hfk
            rw [hw']
            refine JEquivO.some ?_
            have hszw := sizeOf_lookupJ hfk
            have hszv := sizeOf_lookupJ hgk
            simp only [JVal.obj.sizeOf_spec] at hsz
            exact ih (sizeOf w + sizeOf v) (by omega) w v w' v' le_rfl
              (wfV_of_lookupJ hwlo.2 hfk) (wfV_of_lookupJ hwhi.2 hgk)
              (wfV_of_lookupJ hwlo'.2 (by
                obtain ⟨w2, hw2, _⟩ := JEquivO_some (hf k) hfk
                rw [hw2] at hw'
                exact hw'.symm ▸ hw2))
              (wfV_of_lookupJ hwhi'.2 hv') hww hvv

theorem applyFields_congr (bf pf bf' pf' : JObj)
    (h1 : wfDoc bf = true) (h2 : wfDoc pf = true)
    (h3 : wfDoc bf' = true) (h4 : wfDoc pf' = true)
    (e1 : JObjEquiv bf bf') (e2 : JObjEquiv pf pf') :
    JObjEquiv (applyFields bf pf) (applyFields bf' pf') := by
  have h := applyPatch_congr_aux (sizeOf (JVal.obj bf) + sizeOf (JVal.obj pf))
    (.obj bf) (.obj pf) (.obj bf') (.obj pf') le_rfl
    (by simpa [wfV, wfDoc] using h1) (by simpa [wfV, wfDoc] using h2)
    (by simpa [wfV, wfDoc] using h3) (by simpa [wfV, wfDoc] using h4)
    (.obj e1) (.obj e2)
  cases h with
  | obj hk => exact hk

theorem OptObjEquiv_none {a b : Option JObj} (h : OptObjEquiv a b) (ha : a = none) :
    b = none := by
  cases h with
  | none => rfl
  | some hv => simp at ha

theorem OptObjEquiv_some {a b : Option JObj} {f : JObj} (h : OptObjEquiv a b)
    (ha : a = some f) : ∃ g, b = some g ∧ JObjEquiv f g := by
  cases h with
  | none => simp at ha
  | some hv =>
    injection ha with ha
    subst ha
    exact ⟨_, rfl, hv⟩

theorem OptEntryEquiv_none {a b : Option DistrictEntry} (h : OptEntryEquiv a b)
    (ha : a = none) : b = none := by
  cases h with
  | none => rfl
  | some hb hp => simp at ha

theorem OptEntryEquiv_some {a b : Option DistrictEntry} {e : DistrictEntry}
    (h : OptEntryEquiv a b) (ha : a = some e) :
    ∃ e', b = some e' ∧ e.binding = e'.binding ∧ JObjEquiv e.patch e'.patch := by
  cases h with
  | none => simp at ha
  | some hb hp =>
    injection ha with ha
    subst ha
    exact ⟨_, rfl, hb, hp⟩

theorem bindingOf_regEquiv {reg reg' : Registry} (h : RegEquiv reg reg') (d : String) :
    bindingOf reg d = bindingOf reg' d := by
  unfold bindingOf
  cases hde : lookupEntry reg.districts d with
  | none => rw [OptEntryEquiv_none (h.districts d) hde]
  | some e =>
    obtain ⟨e', he', hb, _⟩ := OptEntryEquiv_some (h.districts d) hde
    rw [he']
    exact hb

theorem hasLayer_regEquiv {reg reg' : Registry} (h : RegEquiv reg reg') (t : CourtType) :
    hasLayer reg t = hasLayer reg' t := by
  unfold hasLayer
  cases hl : reg.typeLayers t with
  | none => rw [OptObjEquiv_none (h.layers t) hl]
  | some f =>
    obtain ⟨g, hg, _⟩ := OptObjEquiv_some (h.layers t) hl
    rw [hg]
    rfl

theorem classify_regEquiv {reg reg' : Registry} (h : RegEquiv reg reg') (d : String)
    (hint : Option String) : Classify reg d hint = Classify reg' d hint := by
  have hfall : classifyFallback reg d = classifyFallback reg' d := by
    unfold classifyFallback
    rw [bindingOf_regEquiv h d]
  cases hint with
  | none => simp [Classify, hfall]
  | some s =>
    cases hp : parseCourtType s with
    | none => simp [Classify, hp]
    | some t => simp [Classify, hp, hasLayer_regEquiv h t, hfall]

theorem typeLayerD_regEquiv {reg reg' : Registry} (h : RegEquiv reg reg') (t : CourtType) :
    JObjEquiv (typeLayerD reg t) (typeLayerD reg' t) := by
  unfold typeLayerD
  cases hl : reg.typeLayers t with
  | none =>
    rw [OptObjEquiv_none (h.layers t) hl]
    exact jobjEquiv_nil
  | some f =>
    obtain ⟨g, hg, hfg⟩ := OptObjEquiv_some (h.layers t) hl
    rw [hg]
    exact hfg

theorem upsert_equiv {f g : JObj} (h : JObjEquiv f g) (k : String) {v w : JVal}
    (hvw : JEquiv v w) : JObjEquiv (upsert f k v) (upsert g k w) := by
  intro key
  by_cases hk : k = key
  · subst hk
    rw [lookupJ_upsert_self, lookupJ_upsert_self]
    exact .some hvw
  · rw [lookupJ_upsert_ne _ _ _ _ hk, lookupJ_upsert_ne _ _ _ _ hk]
    exact h key

theorem secObjOf_equiv {doc doc' : JObj} (h : JObjEquiv doc doc') :
    JObjEquiv (secObjOf doc) (secObjOf doc') := by
  unfold secObjOf
  cases hl : lookupJ doc "security" with
  | none =>
    rw [JEquivO_none (h "security") hl]
    exact jobjEquiv_nil
  | some v =>
    obtain ⟨w, hw, hvw⟩ := JEquivO_some (h "security") hl
    rw [hw]
    cases hvw with
    | b x => exact jobjEquiv_nil
    | n x => exact jobjEquiv_nil
    | s x => exact jobjEquiv_nil
    | arr hxs => exact jobjEquiv_nil
    | obj hsec => exact hsec

theorem clampTimeout_equiv {o o' : Option JVal} (h : JEquivO o o') :
    JEquiv (clampTimeout o) (clampTimeout o') := by
  cases h with
  | none => exact .n 15
  | some hv =>
    cases hv with
    | b x => exact .n 15
    | n x => exact .n (min x 15)
    | s x => exact .n 15
    | arr hxs => exact .n 15
    | obj hf => exact .n 15

theorem applyFloor_equiv (t : CourtType) {doc doc' : JObj} (h : JObjEquiv doc doc') :
    JObjEquiv (ApplyFloor t doc) (ApplyFloor t doc') := by
  cases t with
  | district => exact h
  | bankruptcy => exact h
  | tax => exact h
  | fisa =>
    show JObjEquiv (upsert doc "security" _) (upsert doc' "security" _)
    apply upsert_equiv h
    refine JEquiv.obj ?_
    unfold fisaSecurityFloor
    exact upsert_equiv
      (upsert_equiv (upsert_equiv (secObjOf_equiv h) "require_2fa" (.b true))
        "session_timeout_minutes"
        (clampTimeout_equiv (secObjOf_equiv h "session_timeout_minutes")))
      "require_security_clearance" (.b true)

theorem wfEntries_lookup {l : List (String × DistrictEntry)} {d : String}
    {e : DistrictEntry} (hwf : wfEntries l = true) (h : lookupEntry l d = some e) :
    wfDoc e.patch = true := by
  induction l with
  | nil => simp [lookupEntry] at h
  | cons p rest ih =>
    obtain ⟨k, v⟩ := p
    simp only [wfEntries, Bool.and_eq_true] at hwf
    simp only [lookupEntry] at h
    by_cases hk : k = d
    · rw [if_pos hk] at h
      injection h with h
      subst h
      exact hwf.1
    · rw [if_neg hk] at h
      exact ih hwf.2 h

theorem wfDoc_typeLayerD {reg : Registry} (h : wfRegistry reg = true) (t : CourtType) :
    wfDoc (typeLayerD reg t) = true := by
  simp only [wfRegistry, Bool.and_eq_true] at h
  obtain ⟨⟨⟨⟨⟨hbase, hd⟩, hb⟩, hf⟩, ht⟩, he⟩ := h
  unfold typeLayerD
  cases t with
  | district =>
    cases hl : reg.typeLayers .district with
    | none => rfl
    | some f => rw [hl] at hd; exact hd
  | bankruptcy =>
    cases hl : reg.typeLayers .bankruptcy with
    | none => rfl
    | some f => rw [hl] at hb; exact hb
  | fisa =>
    cases hl : reg.typeLayers .fisa with
    | none => rfl
    | some f => rw [hl] at hf; exact hf
  | tax =>
    cases hl : reg.typeLayers .tax with
    | none => rfl
    | some f => rw [hl] at ht; exact ht

theorem wfRegistry_base {reg : Registry} (h : wfRegistry reg = true) :
    wfDoc reg.base = true := by
  simp only [wfRegistry, Bool.and_eq_true] at h
  exact h.1.1.1.1.1

theorem wfRegistry_entries {reg : Registry} (h : wfRegistry reg = true) :
    wfEntries reg.districts = true := by
  simp only [wfRegistry, Bool.and_eq_true] at h
  exact h.2

theorem resolve_regEquiv {reg reg' : Registry} (hwf : wfRegistry reg = true)
    (hwf' : wfRegistry reg' = true) (h : RegEquiv reg reg') (d : String)
    (hint : Option String) :
    ExceptEquiv (ResolveConfig reg d hint) (ResolveConfig reg' d hint) := by
  unfold ResolveConfig
  rw [← classify_regEquiv h d hint]
  cases hc : Classify reg d hint with
  | error e => exact .error e
  | ok t =>
    cases hde : lookupEntry reg.districts d with
    | none =>
      rw [OptEntryEquiv_none (h.districts d) hde]
      exact .error .unknownDistrict
    | some e =>
      obtain ⟨e', he', hb, hp⟩ := OptEntryEquiv_some (h.districts d) hde
      rw [he']
      refine .ok (JEquiv.obj ?_)
      apply applyFloor_equiv
      exact applyFields_congr _ _ _ _
        (wfDoc_applyFields _ _ (wfRegistry_base hwf) (wfDoc_typeLayerD hwf t))
        (wfEntries_lookup (wfRegistry_entries hwf) hde)
        (wfDoc_applyFields _ _ (wfRegistry_base hwf') (wfDoc_typeLayerD hwf' t))
        (wfEntries_lookup (wfRegistry_entries hwf') he')
        (applyFields_congr _ _ _ _ (wfRegistry_base hwf) (wfDoc_typeLayerD hwf t)
          (wfRegistry_base hwf') (wfDoc_typeLayerD hwf' t)
          h.base (typeLayerD_regEquiv h t))
        hp

theorem optObjEquiv_refl (o : Option JObj) : OptObjEquiv o o := by
  cases o with
  | none => exact .none
  | some f => exact .some (jobjEquiv_refl f)

theorem optEntryEquiv_refl (o : Option DistrictEntry) : OptEntryEquiv o o := by
  cases o with
  | none => exact .none
  | some e => exact .some rfl (jobjEquiv_refl e.patch)

theorem regEquiv_refl (reg : Registry) : RegEquiv reg reg :=
  ⟨jobjEquiv_refl reg.base, fun t => optObjEquiv_refl (reg.typeLayers t),
    fun d => optEntryEquiv_refl (lookupEntry reg.districts d)⟩

/-- C4: resolution is deterministic — with no registry reload in between, a
second resolution of the same `(districtCode, typeHint)` pair (served
through the cache) returns exactly the first result; and the result does
not depend on the order of keys within any category or flag map: two
well-formed registries whose layers agree up to key order resolve every
request to equivalent results. -/
theorem resolution_deterministic :
    (∀ (reg : Registry) (d : String) (hint : Option String),
      (resolveCached reg ((resolveCached reg emptyCache d hint).2) d hint).1 =
        (resolveCached reg emptyCache d hint).1) ∧
    (∀ (reg reg' : Registry) (d : String) (hint : Option String),
      wfRegistry reg = true → wfRegistry reg' = true → RegEquiv reg reg' →
      ExceptEquiv (ResolveConfig reg d hint) (ResolveConfig reg' d hint)) := by
  constructor
  · intro reg d hint
    show (resolveCached reg (resolveCached reg ⟨[]⟩ d hint).2 d hint).1 =
      (resolveCached reg ⟨[]⟩ d hint).1
    cases hres : ResolveConfig reg d hint with
    | ok r => simp [resolveCached, cacheLookup, hres]
    | error e => simp [resolveCached, cacheLookup, hres]
  · intro reg reg' d hint hwf hwf' h
    exact resolve_regEquiv hwf hwf' h d hint

theorem resolution_deterministic_w :
    ExceptEquiv (ResolveConfig theRegistry "SDNY" none)
      (ResolveConfig theRegistry "SDNY" none) :=
  resolution_deterministic.2 theRegistry theRegistry "SDNY" none (by decide) (by decide)
    (regEquiv_refl theRegistry)

/-! ### Part II: claim theorems about the fix scripts -/

theorem replaceGo_of_not_hasSub (pat rep : List Char) (fuel : Nat) (s : List Char)
    (h : hasSub pat s = false) : replaceGo pat rep fuel s = s := by
  induction fuel generalizing s with
  | zero => cases s <;> rfl
  | succ m ih =>
    cases s with
    | nil => rfl
    | cons c cs =>
      simp only [hasSub, Bool.or_eq_false_iff] at h
      simp [replaceGo, h.1, ih cs h.2]

theorem replaceAll_of_not_hasSub (s pat rep : List Char)
    (h : hasSub pat s = false) : replaceAll s pat rep = s := by
  cases hp : pat with
  | nil =>
    subst hp
    have : hasSub ([] : List Char) s = true := by
      cases s <;> simp [hasSub, List.isPrefixOf]
    rw [this] at h
    cases h
  | cons p ps =>
    subst hp
    simp only [replaceAll, List.isEmpty_cons, Bool.false_eq_true, if_false]
    exact replaceGo_of_not_hasSub _ _ _ _ h

/-- C9 counterexample: on the input `"Hearing"Hearing"` — two occurrences
of the literal `"Hearing"` sharing their middle quote — the first pass,
`fix_docket_entry_types`, rewrites only the first occurrence (Python's
`str.replace` resumes after the replaced text), so its output still
contains `"Hearing"`; the `"Hearing"` → `"motion_hearing"` rule of
`fix_event_types` then fires, so the rule is reachable and not every
occurrence was rewritten by the first pass. -/
theorem hearing_rule_reachable_cx :
    hasSub (strL "\"Hearing\"")
      (fix_docket_entry_types (strL "\"Hearing\"Hearing\"")) = true ∧
    fix_docket_entry_types (strL "\"Hearing\"Hearing\"") = strL "\"hearing\"Hearing\"" ∧
    firstTwoPasses (strL "\"Hearing\"Hearing\"") = strL "\"hearing\"motion_hearing\"" ∧
    fixEventTypesNoHearingRule (fix_docket_entry_types (strL "\"Hearing\"Hearing\"")) =
      strL "\"hearing\"Hearing\"" ∧
    firstTwoPasses (strL "\"Hearing\"Hearing\"") ≠
      fixEventTypesNoHearingRule (fix_docket_entry_types (strL "\"Hearing\"Hearing\"")) := by
  decide

/-- C9 (amended): `process_test_file` applies `fix_docket_entry_types`
before `fix_event_types`; on the concrete literal `"Hearing"` the first
pass rewrites it to `"hearing"`; whenever the first pass's output no
longer contains `"Hearing"` — which holds for every input without
overlapping occurrences of that literal — the `"Hearing"` →
`"motion_hearing"` rule of `fix_event_types` is unreachable (dropping it
does not change the composed result); and composing the two passes in the
opposite order gives a different result on `"Hearing"`, so the composition
is not commutative. -/
theorem pipeline_order_hearing :
    fix_docket_entry_types (strL "\"Hearing\"") = strL "\"hearing\"" ∧
    (∀ content : List Char,
      hasSub (strL "\"Hearing\"") (fix_docket_entry_types content) = false →
      firstTwoPasses content =
        fixEventTypesNoHearingRule (fix_docket_entry_types content)) ∧
    fix_event_types (fix_docket_entry_types (strL "\"Hearing\"")) ≠
      fix_docket_entry_types (fix_event_types (strL "\"Hearing\"")) := by
  refine ⟨by decide, ?_, by decide⟩
  intro content h
  show applyReps eventReplacements (fix_docket_entry_types content) =
    applyReps eventReplacements.tail (fix_docket_entry_types content)
  simp only [applyReps, eventReplacements, List.foldl_cons, List.tail_cons]
  rw [replaceAll_of_not_hasSub _ _ _ h]

theorem pipeline_order_hearing_w :
    firstTwoPasses (strL " \"Hearing\" x") =
      fixEventTypesNoHearingRule (fix_docket_entry_types (strL " \"Hearing\" x")) :=
  pipeline_order_hearing.2.1 (strL " \"Hearing\" x") (by decide)

/-- C10: `fix_uuid_placeholders` replaces each occurrence of its eight
test-ID literals with its fixed constant; applied to `"def-001"` it yields
`"b4d8e6fa-9c5f-5f3b-ad7e-2g4f6b8cae3d"`, two occurrences receive the same
constant, and the constants substituted for `"def-001"`, `"deadline-001"`
and `"docket-001"` contain the non-hexadecimal characters `g`, `h` and
`i`, so they are not valid UUIDs. -/
theorem uuid_placeholder_constants :
    fix_uuid_placeholders (strL "\"def-001\"") =
      strL "\"b4d8e6fa-9c5f-5f3b-ad7e-2g4f6b8cae3d\"" ∧
    fix_uuid_placeholders (strL "[\"def-001\", \"def-001\"]") =
      strL ("[\"b4d8e6fa-9c5f-5f3b-ad7e-2g4f6b8cae3d\", " ++
        "\"b4d8e6fa-9c5f-5f3b-ad7e-2g4f6b8cae3d\"]") ∧
    isValidUuid (strL "b4d8e6fa-9c5f-5f3b-ad7e-2g4f6b8cae3d") = false ∧
    isValidUuid (strL "c5e9f7gb-ad6g-6g4c-be8f-3h5g7c9dbf4e") = false ∧
    isValidUuid (strL "d6fag8hc-be7h-7h5d-cf9g-4i6h8daecg5f") = false ∧
    ('g' ∈ strL "b4d8e6fa-9c5f-5f3b-ad7e-2g4f6b8cae3d" ∧ isHexDigit 'g' = false) ∧
    ('h' ∈ strL "c5e9f7gb-ad6g-6g4c-be8f-3h5g7c9dbf4e" ∧ isHexDigit 'h' = false) ∧
    ('i' ∈ strL "d6fag8hc-be7h-7h5d-cf9g-4i6h8daecg5f" ∧ isHexDigit 'i' = false) ∧
    isValidUuid (strL "d45463d9-c01e-5d65-9c6a-f879e574cdca") = true := by
  decide

theorem length_dropWhile_le (p : Char → Bool) (l : List Char) :
    (l.dropWhile p).length ≤ l.length := by
  induction l with
  | nil => simp
  | cons c cs ih =>
    by_cases h : p c <;> simp [List.dropWhile, h] <;> omega

theorem matchSimple_rest_le (ps : List (List Char)) (cs : List Char) {id rest : List Char}
    (h : matchSimple ps cs = some (id, rest)) : rest.length ≤ cs.length := by
  induction ps with
  | nil => simp [matchSimple] at h
  | cons p ps ih =>
    rw [matchSimple] at h
    split at h
    · split at h
      · exact ih h
      · simp only [Option.some.injEq, Prod.mk.injEq] at h
        obtain ⟨h1, h2⟩ := h
        subst h2
        calc ((cs.drop p.length).dropWhile isDigit09).length
            ≤ (cs.drop p.length).length := length_dropWhile_le _ _
          _ ≤ cs.length := by simp [List.length_drop]
    · exact ih h

theorem matchIdBody_rest_le (cs : List Char) {id rest : List Char}
    (h : matchIdBody cs = some (id, rest)) : rest.length ≤ cs.length := by
  rw [matchIdBody] at h
  split at h
  · split at h
    · simp at h
    · split at h
      · split at h
        · simp at h
        · simp only [Option.some.injEq, Prod.mk.injEq] at h
          obtain ⟨h1, h2⟩ := h
          subst h2
          calc ((((cs.drop 5).dropWhile isLowerAZ).drop 1).dropWhile isDigit09).length
              ≤ (((cs.drop 5).dropWhile isLowerAZ).drop 1).length :=
                length_dropWhile_le _ _
            _ ≤ ((cs.drop 5).dropWhile isLowerAZ).length := by
                simp [List.length_drop]
            _ ≤ (cs.drop 5).length := length_dropWhile_le _ _
            _ ≤ cs.length := by simp [List.length_drop]
      · simp at h
  · exact matchSimple_rest_le _ _ h

theorem tryMatchId_rest_lt (cs : List Char) {id rest : List Char}
    (h : tryMatchId cs = some (id, rest)) : rest.length < cs.length := by
  match cs with
  | [] => simp [tryMatchId] at h
  | c :: cs1 =>
    rw [tryMatchId] at h
    split at h
    · split at h
      · rename_i id0 pr heq
        split at h
        · simp only [Option.some.injEq, Prod.mk.injEq] at h
          obtain ⟨h1, h2⟩ := h
          subst h2
          have hb := matchIdBody_rest_le cs1 heq
          simp only [List.length_cons] at hb ⊢
          omega
        · simp at h
      · simp at h
    · simp at h

theorem fixScanGo_cons_none {fuel : Nat} {c : Char} {cs : List Char}
    (h : tryMatchId (c :: cs) = none) :
    fixScanGo (fuel + 1) (c :: cs) = c :: fixScanGo fuel cs := by
  simp [fixScanGo, h]

theorem fixScanGo_cons_some {fuel : Nat} {c : Char} {cs id rest : List Char}
    (h : tryMatchId (c :: cs) = some (id, rest)) :
    fixScanGo (fuel + 1) (c :: cs) =
      '\"' :: generate_test_uuid id ++ '\"' :: fixScanGo fuel rest := by
  simp [fixScanGo, h]

theorem fixScanGo_fuel (fuel : Nat) :
    ∀ (fuel2 : Nat) (s : List Char), s.length ≤ fuel → s.length ≤ fuel2 →
      fixScanGo fuel s = fixScanGo fuel2 s := by
  induction fuel using Nat.strong_induction_on with
  | _ fuel ih =>
    intro fuel2 s h1 h2
    cases s with
    | nil => cases fuel <;> cases fuel2 <;> rfl
    | cons c cs =>
      simp only [List.length_cons] at h1 h2
      cases fuel with
      | zero => omega
      | succ f =>
        cases fuel2 with
        | zero => omega
        | succ f2 =>
          cases hm : tryMatchId (c :: cs) with
          | none =>
            rw [fixScanGo_cons_none hm, fixScanGo_cons_none hm,
              ih f (by omega) f2 cs (by omega) (by omega)]
          | some pr =>
            obtain ⟨id, rest⟩ := pr
            have hlt := tryMatchId_rest_lt (c :: cs) hm
            simp only [List.length_cons] at hlt
            rw [fixScanGo_cons_some hm, fixScanGo_cons_some hm,
              ih f (by omega) f2 rest (by omega) (by omega)]

theorem all_takeWhile (p : Char → Bool) (l : List Char) :
    (l.takeWhile p).all p = true := by
  induction l with
  | nil => simp
  | cons c cs ih =>
    by_cases h : p c <;> simp [List.takeWhile, h, ih]

theorem takeWhile_all_append {p : Char → Bool} (ds : List Char) (h : ds.all p = true)
    {b : Char} (hb : p b = false) (r : List Char) :
    (ds ++ b :: r).takeWhile p = ds ∧ (ds ++ b :: r).dropWhile p = b :: r := by
  induction ds with
  | nil => simp [List.takeWhile, List.dropWhile, hb]
  | cons d ds ih =>
    simp only [List.all_cons, Bool.and_eq_true] at h
    obtain ⟨ih1, ih2⟩ := ih h.2
    simp [List.takeWhile, List.dropWhile, h.1, ih1, ih2]

theorem eq_append_of_isPrefixOf {p s : List Char} (h : p.isPrefixOf s = true) :
    ∃ t, s = p ++ t := by
  induction p generalizing s with
  | nil => exact ⟨s, rfl⟩
  | cons c cs ih =>
    cases s with
    | nil => simp [List.isPrefixOf] at h
    | cons d ds =>
      simp only [List.isPrefixOf, Bool.and_eq_true, beq_iff_eq] at h
      obtain ⟨t, ht⟩ := ih h.2
      exact ⟨t, by rw [h.1, ht]; rfl⟩

theorem drop_length_append_self (p t : List Char) : (p ++ t).drop p.length = t := by
  induction p with
  | nil => simp
  | cons c cs ih => simpa using ih

theorem isPrefixOf_append_self (p t : List Char) : p.isPrefixOf (p ++ t) = true := by
  induction p with
  | nil => simp [List.isPrefixOf]
  | cons c cs ih => simp [List.isPrefixOf, ih]

theorem isPrefixOf_cons_false {a c : Char} (h : (a == c) = false) (as cs : List Char) :
    (a :: as).isPrefixOf (c :: cs) = false := by
  simp [List.isPrefixOf, h]

theorem isPrefixOf_cons2_false {a b c : Char} (h : (b == c) = false) (as cs : List Char) :
    (a :: b :: as).isPrefixOf (a :: c :: cs) = false := by
  simp [List.isPrefixOf, h]

theorem matchSimple_cons_found {p cs ds tail : List Char} (ps : List (List Char))
    (hpre : p.isPrefixOf cs = true)
    (htw : (cs.drop p.length).takeWhile isDigit09 = ds)
    (hdw : (cs.drop p.length).dropWhile isDigit09 = tail)
    (hne : ds ≠ []) :
    matchSimple (p :: ps) cs = some (p ++ ds, tail) := by
  simp only [matchSimple, htw, hdw]
  rw [if_pos hpre, if_neg hne]

theorem matchSimple_cons_skip {p cs : List Char} (ps : List (List Char))
    (hpre : p.isPrefixOf cs = false) :
    matchSimple (p :: ps) cs = matchSimple ps cs := by
  simp [matchSimple, hpre]

theorem matchIdBody_not_test {cs : List Char}
    (h : (strL "test-").isPrefixOf cs = false) :
    matchIdBody cs = matchSimple [strL "case-", strL "judge-", strL "attorney-",
      strL "deadline-", strL "docket-"] cs := by
  simp [matchIdBody, h]

theorem matchIdBody_test_found {cs letters ds rest : List Char}
    (hpre : (strL "test-").isPrefixOf cs = true)
    (h1 : (cs.drop 5).takeWhile isLowerAZ = letters) (hl : letters ≠ [])
    (h2 : ['-'].isPrefixOf ((cs.drop 5).dropWhile isLowerAZ) = true)
    (h3 : (((cs.drop 5).dropWhile isLowerAZ).drop 1).takeWhile isDigit09 = ds)
    (hd : ds ≠ [])
    (h4 : (((cs.drop 5).dropWhile isLowerAZ).drop 1).dropWhile isDigit09 = rest) :
    matchIdBody cs = some (strL "test-" ++ letters ++ '-' :: ds, rest) := by
  simp only [matchIdBody, h1, h3, h4]
  rw [if_pos hpre, if_neg hl, if_pos h2, if_neg hd]

theorem matchSimple_found_at (pre ds r : List Char) (ps : List (List Char))
    (hne : ds ≠ []) (hall : ds.all isDigit09 = true) :
    matchSimple (pre :: ps) (pre ++ (ds ++ '\"' :: r)) = some (pre ++ ds, '\"' :: r) := by
  obtain ⟨htw, hdw⟩ := takeWhile_all_append ds hall
    (show isDigit09 '\"' = false from by decide) r
  refine matchSimple_cons_found ps (isPrefixOf_append_self pre _) ?_ ?_ hne
  · rw [drop_length_append_self]
    exact htw
  · rw [drop_length_append_self]
    exact hdw

theorem matchIdBody_append {id : List Char} (h : isTestId id = true) (r : List Char) :
    matchIdBody (id ++ '\"' :: r) = some (id, '\"' :: r) := by
  simp only [isTestId, Bool.or_eq_true] at h
  rcases h with ((((h | h) | h) | h) | h) | h
  · -- the test-[a-z]+-\d+ alternative
    simp only [isTestBody, Bool.and_eq_true, decide_eq_true_eq] at h
    obtain ⟨⟨⟨⟨hpre, hlet⟩, hdash⟩, hne⟩, hall⟩ := h
    obtain ⟨tl, rfl⟩ := eq_append_of_isPrefixOf hpre
    have hdrop : (strL "test-" ++ tl).drop 5 = tl :=
      drop_length_append_self (strL "test-") tl
    rw [hdrop] at hlet hdash hne hall
    have hsplit : tl.takeWhile isLowerAZ ++ tl.dropWhile isLowerAZ = tl :=
      List.takeWhile_append_dropWhile isLowerAZ tl
    obtain ⟨ds0, hds0⟩ := eq_append_of_isPrefixOf hdash
    have hds0' : (tl.dropWhile isLowerAZ).drop 1 = ds0 := by rw [hds0]; rfl
    rw [hds0'] at hne hall
    rw [List.append_assoc]
    have hcs5 : (strL "test-" ++ (tl ++ '\"' :: r)).drop 5 = tl ++ '\"' :: r :=
      drop_length_append_self (strL "test-") _
    have htl : tl ++ '\"' :: r =
        tl.takeWhile isLowerAZ ++ '-' :: (ds0 ++ '\"' :: r) := by
      conv_lhs => rw [← hsplit]
      rw [hds0]
      simp
    obtain ⟨htw1, hdw1⟩ := takeWhile_all_append (tl.takeWhile isLowerAZ)
      (all_takeWhile isLowerAZ tl) (show isLowerAZ '-' = false from by decide)
      (ds0 ++ '\"' :: r)
    obtain ⟨htw2, hdw2⟩ := takeWhile_all_append ds0 hall
      (show isDigit09 '\"' = false from by decide) r
    have hx1 : ((strL "test-" ++ (tl ++ '\"' :: r)).drop 5).takeWhile isLowerAZ =
        tl.takeWhile isLowerAZ := by
      rw [hcs5, htl]
      exact htw1
    have hx2 : ['-'].isPrefixOf
        (((strL "test-" ++ (tl ++ '\"' :: r)).drop 5).dropWhile isLowerAZ) = true := by
      rw [hcs5, htl, hdw1]
      simp [List.isPrefixOf]
    have hx3 : ((((strL "test-" ++ (tl ++ '\"' :: r)).drop 5).dropWhile
        isLowerAZ).drop 1).takeWhile isDigit09 = ds0 := by
      rw [hcs5, htl, hdw1]
      exact htw2
    have hx4 : ((((strL "test-" ++ (tl ++ '\"' :: r)).drop 5).dropWhile
        isLowerAZ).drop 1).dropWhile isDigit09 = '\"' :: r := by
      rw [hcs5, htl, hdw1]
      exact hdw2
    have htail : tl.takeWhile isLowerAZ ++ '-' :: ds0 = tl := by
      conv_rhs => rw [← hsplit]
      rw [hds0]
      simp
    rw [matchIdBody_test_found (isPrefixOf_append_self _ _) hx1 hlet hx2 hx3 hne hx4]
    exact congrArg (fun t => some (strL "test-" ++ t, '\"' :: r)) htail
  · -- case-
    simp only [isSimpleBody, Bool.and_eq_true, decide_eq_true_eq] at h
    obtain ⟨⟨hpre, hne⟩, hall⟩ := h
    obtain ⟨ds, rfl⟩ := eq_append_of_isPrefixOf hpre
    have hdrop : (strL "case-" ++ ds).drop (strL "case-").length = ds :=
      drop_length_append_self _ _
    rw [hdrop] at hne hall
    have htest : (strL "test-").isPrefixOf (strL "case-" ++ (ds ++ '\"' :: r)) = false :=
      isPrefixOf_cons_false (by decide) _ _
    rw [List.append_assoc, matchIdBody_not_test htest]
    exact matchSimple_found_at (strL "case-") ds r _ hne hall
  · -- judge-
    simp only [isSimpleBody, Bool.and_eq_true, decide_eq_true_eq] at h
    obtain ⟨⟨hpre, hne⟩, hall⟩ := h
    obtain ⟨ds, rfl⟩ := eq_append_of_isPrefixOf hpre
    have hdrop : (strL "judge-" ++ ds).drop (strL "judge-").length = ds :=
      drop_length_append_self _ _
    rw [hdrop] at hne hall
    have htest : (strL "test-").isPrefixOf (strL "judge-" ++ (ds ++ '\"' :: r)) = false :=
      isPrefixOf_cons_false (by decide) _ _
    have hs1 : (strL "case-").isPrefixOf (strL "judge-" ++ (ds ++ '\"' :: r)) = false :=
      isPrefixOf_cons_false (by decide) _ _
    rw [List.append_assoc, matchIdBody_not_test htest, matchSimple_cons_skip _ hs1]
    exact matchSimple_found_at (strL "judge-") ds r _ hne hall
  · -- attorney-
    simp only [isSimpleBody, Bool.and_eq_true, decide_eq_true_eq] at h
    obtain ⟨⟨hpre, hne⟩, hall⟩ := h
    obtain ⟨ds, rfl⟩ := eq_append_of_isPrefixOf hpre
    have hdrop : (strL "attorney-" ++ ds).drop (strL "attorney-").length = ds :=
      drop_length_append_self _ _
    rw [hdrop] at hne hall
    have htest : (strL "test-").isPrefixOf (strL "attorney-" ++ (ds ++ '\"' :: r)) = false :=
      isPrefixOf_cons_false (by decide) _ _
    have hs1 : (strL "case-").isPrefixOf (strL "attorney-" ++ (ds ++ '\"' :: r)) = false :=
      isPrefixOf_cons_false (by decide) _ _
    have hs2 : (strL "judge-").isPrefixOf (strL "attorney-" ++ (ds ++ '\"' :: r)) = false :=
      isPrefixOf_cons_false (by decide) _ _
    rw [List.append_assoc, matchIdBody_not_test htest, matchSimple_cons_skip _ hs1,
      matchSimple_cons_skip _ hs2]
    exact matchSimple_found_at (strL "attorney-") ds r _ hne hall
  · -- deadline-
    simp only [isSimpleBody, Bool.and_eq_true, decide_eq_true_eq] at h
    obtain ⟨⟨hpre, hne⟩, hall⟩ := h
    obtain ⟨ds, rfl⟩ := eq_append_of_isPrefixOf hpre
    have hdrop : (strL "deadline-" ++ ds).drop (strL "deadline-").length = ds :=
      drop_length_append_self _ _
    rw [hdrop] at hne hall
    have htest : (strL "test-").isPrefixOf (strL "deadline-" ++ (ds ++ '\"' :: r)) = false :=
      isPrefixOf_cons_false (by decide) _ _
    have hs1 : (strL "case-").isPrefixOf (strL "deadline-" ++ (ds ++ '\"' :: r)) = false :=
      isPrefixOf_cons_false (by decide) _ _
    have hs2 : (strL "judge-").isPrefixOf (strL "deadline-" ++ (ds ++ '\"' :: r)) = false :=
      isPrefixOf_cons_false (by decide) _ _
    have hs3 : (strL "attorney-").isPrefixOf (strL "deadline-" ++ (ds ++ '\"' :: r)) = false :=
      isPrefixOf_cons_false (by decide) _ _
    rw [List.append_assoc, matchIdBody_not_test htest, matchSimple_cons_skip _ hs1,
      matchSimple_cons_skip _ hs2, matchSimple_cons_skip _ hs3]
    exact matchSimple_found_at (strL "deadline-") ds r _ hne hall
  · -- docket-
    simp only [isSimpleBody, Bool.and_eq_true, decide_eq_true_eq] at h
    obtain ⟨⟨hpre, hne⟩, hall⟩ := h
    obtain ⟨ds, rfl⟩ := eq_append_of_isPrefixOf hpre
    have hdrop : (strL "docket-" ++ ds).drop (strL "docket-").length = ds :=
      drop_length_append_self _ _
    rw [hdrop] at hne hall
    have htest : (strL "test-").isPrefixOf (strL "docket-" ++ (ds ++ '\"' :: r)) = false :=
      isPrefixOf_cons_false (by decide) _ _
    have hs1 : (strL "case-").isPrefixOf (strL "docket-" ++ (ds ++ '\"' :: r)) = false :=
      isPrefixOf_cons_false (by decide) _ _
    have hs2 : (strL "judge-").isPrefixOf (strL "docket-" ++ (ds ++ '\"' :: r)) = false :=
      isPrefixOf_cons_false (by decide) _ _
    have hs3 : (strL "attorney-").isPrefixOf (strL "docket-" ++ (ds ++ '\"' :: r)) = false :=
      isPrefixOf_cons_false (by decide) _ _
    have hs4 : (strL "deadline-").isPrefixOf (strL "docket-" ++ (ds ++ '\"' :: r)) = false :=
      isPrefixOf_cons2_false (by decide) _ _
    rw [List.append_assoc, matchIdBody_not_test htest, matchSimple_cons_skip _ hs1,
      matchSimple_cons_skip _ hs2, matchSimple_cons_skip _ hs3, matchSimple_cons_skip _ hs4]
    exact matchSimple_found_at (strL "docket-") ds r _ hne hall

theorem tryMatchId_none_of_ne_quote {c : Char} (h : ¬ c = '\"') (cs : List Char) :
    tryMatchId (c :: cs) = none := by
  simp only [tryMatchId]
  rw [if_neg h]

theorem tryMatchId_quoted {id : List Char} (h : isTestId id = true) (rest : List Char) :
    tryMatchId ('\"' :: (id ++ '\"' :: rest)) = some (id, rest) := by
  simp only [tryMatchId, if_true]
  rw [matchIdBody_append h rest]
  rfl

theorem fixScanGo_quoteFree_append (p : List Char) (hp : '\"' ∉ p) (t : List Char) :
    ∀ fuel, (p ++ t).length ≤ fuel →
      fixScanGo fuel (p ++ t) = p ++ fixScanGo (fuel - p.length) t := by
  induction p with
  | nil =>
    intro fuel h
    simp
  | cons c cs ih =>
    intro fuel h
    have hc : ¬ c = '\"' := fun hh => hp (hh ▸ List.mem_cons_self c cs)
    cases fuel with
    | zero => simp at h
    | succ f =>
      simp only [List.cons_append, List.length_cons] at h ⊢
      rw [fixScanGo_cons_none (tryMatchId_none_of_ne_quote hc _),
        ih (fun hh => hp (List.mem_cons_of_mem c hh)) f (by omega)]
      simp [Nat.succ_sub_succ]

theorem fix_test_uuids_quoteFree_append {p : List Char} (hp : '\"' ∉ p) (t : List Char) :
    fix_test_uuids (p ++ t) = p ++ fix_test_uuids t := by
  show fixScanGo (p ++ t).length (p ++ t) = p ++ fixScanGo t.length t
  rw [fixScanGo_quoteFree_append p hp t (p ++ t).length le_rfl,
    show (p ++ t).length - p.length = t.length from by simp [List.length_append]]

theorem fix_test_uuids_quoteFree {p : List Char} (hp : '\"' ∉ p) :
    fix_test_uuids p = p := by
  have h := fix_test_uuids_quoteFree_append hp []
  simpa [fix_test_uuids, fixScanGo] using h

theorem fix_test_uuids_quoted {id : List Char} (h : isTestId id = true) (rest : List Char) :
    fix_test_uuids ('\"' :: id ++ '\"' :: rest) =
      '\"' :: generate_test_uuid id ++ '\"' :: fix_test_uuids rest := by
  show fixScanGo ('\"' :: (id ++ '\"' :: rest)).length ('\"' :: (id ++ '\"' :: rest)) = _
  rw [List.length_cons, fixScanGo_cons_some (tryMatchId_quoted h rest),
    fixScanGo_fuel (id ++ '\"' :: rest).length rest.length rest
      (by simp [List.length_append]; omega) le_rfl]
  rfl

/-- C8: `generate_test_uuid` is a pure total function of its seed string —
it is `uuid5` over the fixed namespace `uuid.NAMESPACE_DNS` — so
`fix_test_uuids` maps any two equal test-ID literals, wherever they occur
in the input, to the same replacement UUID: for any test id `id` of the
pattern and any quote-free surroundings, both quoted occurrences are
replaced by the one string `generate_test_uuid id`, and the output depends
only on the input string. -/
theorem test_uuid_consistency (p1 p2 p3 id : List Char)
    (h1 : '\"' ∉ p1) (h2 : '\"' ∉ p2) (h3 : '\"' ∉ p3) (hid : isTestId id = true) :
    fix_test_uuids (p1 ++ ('\"' :: id ++ '\"' :: (p2 ++ ('\"' :: id ++ '\"' :: p3)))) =
      p1 ++ ('\"' :: generate_test_uuid id ++ '\"' ::
        (p2 ++ ('\"' :: generate_test_uuid id ++ '\"' :: p3))) := by
  rw [fix_test_uuids_quoteFree_append h1, fix_test_uuids_quoted hid,
    fix_test_uuids_quoteFree_append h2, fix_test_uuids_quoted hid,
    fix_test_uuids_quoteFree h3]

theorem test_uuid_consistency_w :
    fix_test_uuids (strL "x: " ++ ('\"' :: strL "judge-001" ++ '\"' ::
        (strL ", y: " ++ ('\"' :: strL "judge-001" ++ '\"' :: strL ".")))) =
      strL "x: " ++ ('\"' :: generate_test_uuid (strL "judge-001") ++ '\"' ::
        (strL ", y: " ++ ('\"' :: generate_test_uuid (strL "judge-001") ++ '\"' ::
          strL "."))) :=
  test_uuid_consistency (strL "x: ") (strL ", y: ") (strL ".") (strL "judge-001")
    (by decide) (by decide) (by decide) (by decide)
